/-
Verification of the tabular profiling / cleaning core of the NIKA dashboard.

The executor and its helpers are shallowly embedded from
frontend/src/components/UnifiedVisualization.tsx, the statistical profiler
from frontend/src/components/Analytics.tsx, and the type-inference rule from
debug-qa.js (analyzeColumns).  JavaScript numbers are modelled as ℚ with a
separate NaN marker; host date primitives (parsing, calendar fields,
rendering) are abstracted into a `JSEnv` record of pure functions.
-/
import Mathlib

set_option maxHeartbeats 1000000

/-- Model of a JavaScript scalar cell value: finite number, NaN, string,
boolean, Date (by epoch-millisecond instant), `null` or `undefined`. -/
inductive JSVal where
  | num (q : ℚ)
  | nan
  | str (s : String)
  | bool (b : Bool)
  | date (t : ℤ)
  | null
  | undefined
deriving DecidableEq, Repr

/-- The equality test used by `setCell`:
`prev === nextVal || (prev instanceof Date && nextVal instanceof Date && prev.getTime() === nextVal.getTime())`.
Strict equality on primitives (`NaN === NaN` is false, cross-type is false);
for two Dates the `getTime` disjunct makes the test instant-based, which is
what the value model records. -/
def jsEqB : JSVal → JSVal → Bool
  | .num a, .num b => a == b
  | .str a, .str b => a == b
  | .bool a, .bool b => a == b
  | .date a, .date b => a == b
  | .null, .null => true
  | .undefined, .undefined => true
  | _, _ => false

/-- `isNullish`: `v === null || v === undefined || v === ""`. -/
def isNullish : JSVal → Bool
  | .null => true
  | .undefined => true
  | .str s => s == ""
  | _ => false

/-- JavaScript loose `v == null`, true exactly for `null` and `undefined`. -/
def jsLooseNull : JSVal → Bool
  | .null => true
  | .undefined => true
  | _ => false

/-- Value of a digit string, most significant first. -/
def digitsVal (l : List Char) : ℕ :=
  l.foldl (fun acc c => 10 * acc + (c.toNat - '0'.toNat)) 0

/-- Leading sign of a JS numeric literal; returns (isNegative, rest). -/
def parseSign : List Char → Bool × List Char
  | '+' :: rest => (false, rest)
  | '-' :: rest => (true, rest)
  | l => (false, l)

/-- ASCII lowercase of a string (JS `toLowerCase`, modelled on the ASCII
range). -/
def toLowerStr (s : String) : String := String.mk (s.toList.map Char.toLower)

/-- ASCII uppercase of a string (JS `toUpperCase`, modelled on the ASCII
range). -/
def toUpperStr (s : String) : String := String.mk (s.toList.map Char.toUpper)

/-- Whitespace trim at both ends (JS `String.prototype.trim`). -/
def trimStr (s : String) : String :=
  String.mk (((s.toList.dropWhile Char.isWhitespace).reverse.dropWhile Char.isWhitespace).reverse)

/-- Fuel-driven literal replace-all on character lists; every step consumes at
least one character, so fuel = input length is enough.  An empty pattern is
never reached (the executor guards it) and leaves the input unchanged. -/
def replaceAllAux (pat repl : List Char) : ℕ → List Char → List Char
  | _, [] => []
  | 0, s => s
  | fuel + 1, c :: rest =>
    if pat ≠ [] ∧ (c :: rest).take pat.length = pat then
      repl ++ replaceAllAux pat repl fuel ((c :: rest).drop pat.length)
    else c :: replaceAllAux pat repl fuel rest

/-- JS `String.prototype.replaceAll` with a literal (non-regex) pattern. -/
def replaceAllStr (s pat repl : String) : String :=
  String.mk (replaceAllAux pat.toList repl.toList s.toList.length s.toList)

/-- Decimal/scientific part of JS `Number(string)` on an already-trimmed
character list: optional sign, integer digits, optional fraction, optional
exponent.  Returns `none` for NaN.  (Hex/binary literals, which the callers
below can only meet on exotic inputs, are not modelled and parse to NaN.) -/
def jsNumberCore (cs : List Char) : Option ℚ :=
  if cs = [] then some 0 else
  let (neg, cs₁) := parseSign cs
  let (ip, cs₂) := cs₁.span Char.isDigit
  let (fp, cs₃) :=
    match cs₂ with
    | '.' :: rest => rest.span Char.isDigit
    | _ => ([], cs₂)
  let consumedDot := match cs₂ with | '.' :: _ => true | _ => false
  let cs₄ := if consumedDot then cs₃ else cs₂
  if ip = [] ∧ fp = [] then none else
  let mantissa : ℚ :=
    (digitsVal ip : ℚ) + (digitsVal fp : ℚ) / (10 : ℚ) ^ fp.length
  let signed : ℚ := if neg then -mantissa else mantissa
  match cs₄ with
  | [] => some signed
  | 'e' :: rest =>
    let (eneg, r₁) := parseSign rest
    let (ed, r₂) := r₁.span Char.isDigit
    if ed = [] ∨ r₂ ≠ [] then none
    else some (signed * (10 : ℚ) ^ (if eneg then -(digitsVal ed : ℤ) else (digitsVal ed : ℤ)))
  | 'E' :: rest =>
    let (eneg, r₁) := parseSign rest
    let (ed, r₂) := r₁.span Char.isDigit
    if ed = [] ∨ r₂ ≠ [] then none
    else some (signed * (10 : ℚ) ^ (if eneg then -(digitsVal ed : ℤ) else (digitsVal ed : ℤ)))
  | _ => none

/-- JS `Number(string)`: trims whitespace, the empty string is `0`. -/
def jsNumber (s : String) : Option ℚ :=
  jsNumberCore (trimStr s).toList

/-- Host date primitives and the `new Date(...)` parser, abstracted.  They are
pure deterministic functions of the host environment.  `new Date(undefined)`
is always an Invalid Date, which the record carries as a proof field. -/
structure JSEnv where
  parseDate : JSVal → Option ℤ
  dateYear : ℤ → ℤ
  dateMonth0 : ℤ → ℤ
  dateDay : ℤ → ℤ
  dateWeekday : ℤ → ℤ
  dateToString : ℤ → String
  dateToISO : ℤ → String
  dateToLocale : ℤ → String
  parseDate_undefined : parseDate JSVal.undefined = none

/-- A fixed concrete environment used to evaluate witnesses. -/
def env0 : JSEnv where
  parseDate := fun _ => none
  dateYear := fun _ => 0
  dateMonth0 := fun _ => 0
  dateDay := fun _ => 0
  dateWeekday := fun _ => 0
  dateToString := fun _ => ""
  dateToISO := fun _ => ""
  dateToLocale := fun _ => ""
  parseDate_undefined := rfl

/-- Rendering of a model number, standing in for JS number-to-string
formatting (deterministic; no claim inspects its exact shape). -/
def qToString (q : ℚ) : String :=
  if q.den = 1 then toString q.num else toString q.num ++ "/" ++ toString q.den

/-- JS `String(v)` on a scalar. -/
def jsToString (env : JSEnv) : JSVal → String
  | .num q => qToString q
  | .nan => "NaN"
  | .str s => s
  | .bool b => if b then "true" else "false"
  | .date t => env.dateToString t
  | .null => "null"
  | .undefined => "undefined"

/-- `parseNumberLike`: null/undefined are NaN, numbers pass through, other
values are stringified, stripped of every character outside `[0-9+-.eE]` and
fed to `Number`; a non-finite result is NaN (`none`). -/
def parseNumberLike (env : JSEnv) : JSVal → Option ℚ
  | .null => none
  | .undefined => none
  | .num q => some q
  | .nan => none
  | v =>
    let cleaned := (jsToString env v).toList.filter
      (fun c => c.isDigit || c == '+' || c == '-' || c == '.' || c == 'e' || c == 'E')
    jsNumberCore cleaned

/-- `toDateOrNull`: a valid Date passes through (by instant); anything else
goes through `new Date(v)`. -/
def toDateOrNull (env : JSEnv) : JSVal → Option ℤ
  | .date t => some t
  | v => env.parseDate v

/-- `mean` (UnifiedVisualization): arithmetic mean of the finite entries,
`null` when there are none. -/
def meanOpt (l : List (Option ℚ)) : Option ℚ :=
  let nums := l.filterMap id
  if nums.length = 0 then none else some (nums.foldl (· + ·) 0 / nums.length)

/-- `median` (UnifiedVisualization): median of the sorted finite entries,
`null` when there are none. -/
def medianOpt (l : List (Option ℚ)) : Option ℚ :=
  let nums := (l.filterMap id).mergeSort (· ≤ ·)
  if nums.length = 0 then none else
  let mid := nums.length / 2
  if nums.length % 2 = 0 then some ((nums.getD (mid - 1) 0 + nums.getD mid 0) / 2)
  else some (nums.getD mid 0)

/-- Safe string lower, `lower(v)`. -/
def jsLower (env : JSEnv) (v : JSVal) : JSVal :=
  if jsLooseNull v then v else .str (toLowerStr (jsToString env v))

/-- Safe string upper, `upper(v)`. -/
def jsUpper (env : JSEnv) (v : JSVal) : JSVal :=
  if jsLooseNull v then v else .str (toUpperStr (jsToString env v))

/-- Safe trim, `trim(v)`. -/
def jsTrim (env : JSEnv) (v : JSVal) : JSVal :=
  if jsLooseNull v then v else .str (trimStr (jsToString env v))

/-- Word character of the regex `\w` (ASCII). -/
def isWordChar (c : Char) : Bool := c.isAlphanum || c == '_'

/-- `capitalizeWords`: uppercase each `\b\w` position, i.e. a word character
not preceded by a word character. -/
def capWordsChars : Bool → List Char → List Char
  | _, [] => []
  | prevWord, c :: rest =>
    (if isWordChar c && !prevWord then c.toUpper else c) :: capWordsChars (isWordChar c) rest

/-- `removeNonAlphanum`: drop characters outside letters/digits/whitespace
(`\p{L}\p{N}\s`, modelled on the Lean character classes). -/
def removeNonAlphanumStr (s : String) : String :=
  String.mk (s.toList.filter (fun c => c.isAlphanum || c.isWhitespace))

/-- JS `Math.trunc`. -/
def jsTrunc (q : ℚ) : ℚ := if 0 ≤ q then (⌊q⌋ : ℚ) else (⌈q⌉ : ℚ)

/-- JS `Math.round` (half toward +∞). -/
def jsRound (q : ℚ) : ℚ := (⌊q + 1/2⌋ : ℚ)

/-- `PreviewCell`: a value with its change flag. -/
structure PreviewCell where
  value : JSVal
  isChanged : Bool
deriving DecidableEq, Repr

/-- A `PreviewRow` is a JS object keyed by column name, modelled as an
insertion-ordered association list. -/
abbrev PreviewRow := List (String × PreviewCell)

/-- Association-list lookup (JS property read). -/
def alookup {α : Type} (k : String) : List (String × α) → Option α
  | [] => none
  | p :: ps => if p.1 = k then some p.2 else alookup k ps

/-- `row[col]?.value`, where a missing property reads as `undefined`. -/
def lookupVal (r : PreviewRow) (k : String) : JSVal :=
  match alookup k r with
  | some c => c.value
  | none => .undefined

/-- Update the cell stored at an existing key (JS `r[key] = ...`; every call
site first checks the key is present, so no append case arises). -/
def updCell (r : PreviewRow) (k : String) (g : PreviewCell → PreviewCell) : PreviewRow :=
  r.map fun p => if p.1 = k then (k, g p.2) else p

/-- `setCell`: write `nextVal` and OR the change flag with the comparison
against the immediately preceding value. -/
def setCell (r : PreviewRow) (k : String) (v : JSVal) : PreviewRow :=
  updCell r k fun c => ⟨v, c.isChanged || !(jsEqB c.value v)⟩

/-- Fill strategies of a `FILL_MISSING` action. -/
inductive FillStrategy where
  | zero | mean | median | custom
deriving DecidableEq, Repr

/-- Target types of a `CHANGE_TYPE` action. -/
inductive NewType where
  | text | integer | float | date | boolean
deriving DecidableEq, Repr

/-- Date parts of an `EXTRACT_DATE_PART` action. -/
inductive DatePart where
  | year | month | day | weekday
deriving DecidableEq, Repr

/-- Tags of the `CleaningAction` variants. -/
inductive ActionType where
  | removeDuplicates | fillMissing | changeType | dropColumn
  | trimWhitespace | lowercase | uppercase | removeNonAlphanum
  | capitalizeWords | replaceSubstring | extractDatePart
  | numberRound | numberScale
deriving DecidableEq, Repr

/-- Kind-specific payload of a cleaning action (all fields optional in the
source interface). -/
structure ActionPayload where
  columnName : Option String := none
  strategy : Option FillStrategy := none
  customValue : Option JSVal := none
  newType : Option NewType := none
  roundTo : Option ℤ := none
  scaleMin : Option ℚ := none
  scaleMax : Option ℚ := none
  find : Option String := none
  replaceWith : Option String := none
  part : Option DatePart := none
deriving DecidableEq, Repr

/-- One cleaning step (the generated random id is irrelevant to execution and
redundancy checking and is not modelled). -/
structure CleaningAction where
  type : ActionType
  description : String := ""
  payload : ActionPayload := {}
deriving DecidableEq, Repr

/-- A dataset as handed over by ingestion: column names plus rows. -/
structure DatasetLike where
  columns : List String
  data : List (List (String × JSVal))
deriving DecidableEq, Repr

/-- JSON string literal with quote/backslash escaping. -/
def jsonStr (s : String) : String :=
  "\"" ++ replaceAllStr (replaceAllStr s "\\" "\\\\") "\"" "\\\"" ++ "\""

/-- JSON rendering of a scalar; `undefined` properties are omitted
(`JSON.stringify` drops them), `NaN` serializes as `null`. -/
def jsonVal (v : JSVal) : Option String :=
  match v with
  | .undefined => none
  | .null => some "null"
  | .nan => some "null"
  | .num q => some (qToString q)
  | .bool b => some (if b then "true" else "false")
  | .str s => some (jsonStr s)
  | .date t => some (qToString t)

/-- `stableKey`: keys sorted, Dates replaced by their ISO string, then
JSON-serialized. -/
def stableKey (env : JSEnv) (row : List (String × JSVal)) : String :=
  let conv := row.map fun p =>
    (p.1, match p.2 with | .date t => JSVal.str (env.dateToISO t) | v => v)
  let sorted := conv.mergeSort (fun a b => a.1 ≤ b.1)
  "\x7b" ++ String.intercalate ","
    (sorted.filterMap fun p => (jsonVal p.2).map fun j => jsonStr p.1 ++ ":" ++ j) ++ "\x7d"

/-- First-occurrence duplicate filter driven by a serialized key
(`REMOVE_DUPLICATES`). -/
def dedupBy (f : PreviewRow → String) : List PreviewRow → List String → List PreviewRow
  | [], _ => []
  | r :: rs, seen =>
    if f r ∈ seen then dedupBy f rs seen else r :: dedupBy f rs (f r :: seen)

/-- Current values of a preview row, as handed to `stableKey` by the
duplicate-removal step. -/
def rowValues (r : PreviewRow) : List (String × JSVal) :=
  r.map fun p => (p.1, p.2.value)

/-- Executor state: the preview rows plus the per-column numeric cache that
mean/median fills consult (`numericCache`). -/
structure ExecState where
  rows : List PreviewRow
  cache : List (String × List (Option ℚ))
deriving DecidableEq, Repr

/-- `ensureNumericCache`: return the cached numeric column, computing and
caching it from the current rows on first use. -/
def ensureNumericCache (env : JSEnv) (s : ExecState) (col : String) :
    List (Option ℚ) × ExecState :=
  match alookup col s.cache with
  | some arr => (arr, s)
  | none =>
    let arr := s.rows.map fun r => parseNumberLike env (lookupVal r col)
    (arr, { s with cache := (col, arr) :: s.cache })

/-- Weekday names indexed by `getDay()`. -/
def weekdayNames : List String :=
  ["Sunday", "Monday", "Tuesday", "Wednesday", "Thursday", "Friday", "Saturday"]

/-- The text transforms share one shape: skip nullish values, stringify,
transform, and skip when the transform is a fixed point (`nv === v`). -/
def textTransformRows (env : JSEnv) (col : String) (f : String → String)
    (rows : List PreviewRow) : List PreviewRow :=
  rows.map fun row =>
    let v := lookupVal row col
    if jsLooseNull v then row else
    let nv := JSVal.str (f (jsToString env v))
    if jsEqB nv v then row else setCell row col nv

/-- One step of the pipeline executor: the `switch (action.type)` body.
An absent column name reads back as the string "undefined" through the JS
property access `row[undefined]`. -/
def applyAction (env : JSEnv) (s : ExecState) (a : CleaningAction) : ExecState :=
  let col := a.payload.columnName.getD "undefined"
  match a.type with
  | .removeDuplicates =>
    { s with rows := dedupBy (fun r => stableKey env (rowValues r)) s.rows [] }
  | .fillMissing =>
    let strat := a.payload.strategy.getD .zero
    let s₁ :=
      match strat with
      | .mean => (ensureNumericCache env s col).2
      | .median => (ensureNumericCache env s col).2
      | _ => s
    let replacement :=
      match strat with
      | .custom => a.payload.customValue.getD .undefined
      | .zero => JSVal.num 0
      | .mean =>
        match meanOpt (ensureNumericCache env s col).1 with
        | some m => JSVal.num m | none => JSVal.num 0
      | .median =>
        match medianOpt (ensureNumericCache env s col).1 with
        | some m => JSVal.num m | none => JSVal.num 0
    { s₁ with rows := s₁.rows.map fun row =>
        match alookup col row with
        | none => row
        | some cell => if isNullish cell.value then setCell row col replacement else row }
  | .changeType =>
    { s with rows := s.rows.map fun row =>
        match alookup col row with
        | none => row
        | some cell =>
          let v := cell.value
          let nv :=
            match a.payload.newType with
            | some .integer =>
              match parseNumberLike env v with
              | some q => JSVal.num (jsTrunc q)
              | none => JSVal.null
            | some .float =>
              match parseNumberLike env v with
              | some q => JSVal.num q
              | none => JSVal.null
            | some .text =>
              if jsLooseNull v then JSVal.str "" else JSVal.str (jsToString env v)
            | some .boolean =>
              JSVal.bool (decide (toLowerStr (jsToString env v) ∈ ["true", "1", "yes", "y"]))
            | some .date =>
              match toDateOrNull env v with
              | some t => JSVal.date t
              | none => JSVal.null
            | none => v
          setCell row col nv }
  | .dropColumn =>
    { s with rows := s.rows.map fun row => updCell row col fun _ => ⟨.undefined, true⟩ }
  | .trimWhitespace =>
    { s with rows := textTransformRows env col trimStr s.rows }
  | .lowercase =>
    { s with rows := textTransformRows env col toLowerStr s.rows }
  | .uppercase =>
    { s with rows := textTransformRows env col toUpperStr s.rows }
  | .removeNonAlphanum =>
    { s with rows := textTransformRows env col removeNonAlphanumStr s.rows }
  | .capitalizeWords =>
    { s with rows := textTransformRows env col (fun t => String.mk (capWordsChars false t.toList)) s.rows }
  | .replaceSubstring =>
    { s with rows := s.rows.map fun row =>
        let v := lookupVal row col
        if jsLooseNull v || a.payload.find == some "" then row else
        let nv := JSVal.str (replaceAllStr (jsToString env v)
          (a.payload.find.getD "undefined") (a.payload.replaceWith.getD "undefined"))
        if jsEqB nv v then row else setCell row col nv }
  | .extractDatePart =>
    { s with rows := s.rows.map fun row =>
        match a.payload.part with
        | none => row
        | some p =>
          match toDateOrNull env (lookupVal row col) with
          | none => row
          | some t =>
            let nv :=
              match p with
              | .year => JSVal.num (env.dateYear t)
              | .month => JSVal.num (env.dateMonth0 t + 1)
              | .day => JSVal.num (env.dateDay t)
              | .weekday =>
                let i := env.dateWeekday t
                if 0 ≤ i ∧ i < 7 then JSVal.str (weekdayNames.getD i.toNat "") else .undefined
            setCell row col nv }
  | .numberRound =>
    let places := a.payload.roundTo.getD 0
    let factor : ℚ := (10 : ℚ) ^ places
    { s with rows := s.rows.map fun row =>
        match parseNumberLike env (lookupVal row col) with
        | none => row
        | some v => setCell row col (JSVal.num (jsRound (v * factor) / factor)) }
  | .numberScale =>
    let nums := s.rows.map fun r => parseNumberLike env (lookupVal r col)
    let finite := nums.filterMap id
    match finite with
    | [] => s
    | f :: rest =>
      let mn := rest.foldl min f
      let mx := rest.foldl max f
      let outMin := a.payload.scaleMin.getD 0
      let outMax := a.payload.scaleMax.getD 1
      { s with rows := s.rows.map fun row =>
          match parseNumberLike env (lookupVal row col) with
          | none => row
          | some v =>
            let t : ℚ := if mx = mn then 0 else (v - mn) / (mx - mn)
            setCell row col (JSVal.num (outMin + t * (outMax - outMin))) }

/-- The preview fold: apply the whole queue in order. -/
def execute (env : JSEnv) (acts : List CleaningAction) (s : ExecState) : ExecState :=
  acts.foldl (applyAction env) s

/-- Rows of the original dataset re-wrapped as preview rows with
`isChanged = false`. -/
def initRows (data : List (List (String × JSVal))) : List PreviewRow :=
  data.map fun r => r.map fun p => (p.1, ⟨p.2, false⟩)

/-- Initial executor state for a dataset. -/
def initState (ds : DatasetLike) : ExecState :=
  ⟨initRows ds.data, []⟩

/-- Flatten a preview row, omitting cells whose value is the `undefined`
drop marker. -/
def flattenRow (r : PreviewRow) : List (String × JSVal) :=
  r.filterMap fun p => if p.2.value = .undefined then none else some (p.1, p.2.value)

/-- Aggregate preview statistics and rows, recomputed after the fold. -/
structure PreviewOut where
  rows : List PreviewRow
  missing : ℕ
  dups : ℕ
deriving DecidableEq, Repr

/-- The whole `preview` computation: fold the queue over the wrapped dataset
and recompute the aggregate stats from the flattened rows. -/
def previewOf (env : JSEnv) (ds : DatasetLike) (acts : List CleaningAction) : PreviewOut :=
  let s := execute env acts (initState ds)
  let flattened := s.rows.map flattenRow
  let missing := (flattened.map fun row => ((row.map Prod.snd).filter isNullish).length).foldl (· + ·) 0
  let dups := flattened.length - ((flattened.map (stableKey env)).dedup).length
  ⟨s.rows, missing, dups⟩

/-- JS truthiness of the optional column-name field (`undefined` and the
empty string are falsy). -/
def colFalsy : Option String → Bool
  | none => true
  | some s => s == ""

/-- The redundancy test of `handleAddAction`: same kind required; an action
proposed without a (truthy) target column is redundant exactly against an
existing `REMOVE_DUPLICATES`; substring replaces also compare the find text;
every other kind compares the target column. -/
def isRedundant (queue : List CleaningAction) (act : CleaningAction) : Bool :=
  queue.any fun a =>
    if a.type ≠ act.type then false
    else if colFalsy act.payload.columnName then a.type == .removeDuplicates
    else if act.type == .replaceSubstring then
      a.payload.columnName == act.payload.columnName && a.payload.find == act.payload.find
    else a.payload.columnName == act.payload.columnName

/-- `handleAddAction`: reject a redundant proposal with a human-readable
reason and leave the queue unchanged, otherwise append the action. -/
def handleAddAction (queue : List CleaningAction) (act : CleaningAction) :
    List CleaningAction × Option String :=
  if isRedundant queue act then
    (queue, some ("A similar \"" ++ act.description ++ "\" step already exists."))
  else (queue ++ [act], none)

/-- Columns dropped by the queue, as collected by `exportCSV` and
`handleApplyChanges` (only truthy column names count). -/
def droppedBy (acts : List CleaningAction) (name : String) : Bool :=
  acts.any fun a =>
    a.type == .dropColumn && !(colFalsy a.payload.columnName) &&
      a.payload.columnName == some name

/-- Final export header columns: the original column order minus all dropped
columns. -/
def finalColumnsOf (acts : List CleaningAction) (cols : List String) : List String :=
  cols.filter fun name => !(droppedBy acts name)

/-- CSV field escaping: nullish renders empty, Dates use the locale date
string, quote/comma/newline force quoting with doubled quotes. -/
def csvEscape (env : JSEnv) (v : JSVal) : String :=
  match v with
  | .null => ""
  | .undefined => ""
  | _ =>
    let s := match v with | .date t => env.dateToLocale t | w => jsToString env w
    if s.toList.any (fun c => c == '"' || c == ',' || c == '\n')
    then "\"" ++ replaceAllStr s "\"" "\"\"" ++ "\""
    else s

/-- `objectsToCSV`: header from the column list, one line per row, fields
escaped; a missing property renders as the empty string. -/
def objectsToCSV (env : JSEnv) (rows : List (List (String × JSVal)))
    (columns : List String) : String :=
  let header := String.intercalate "," (columns.map fun c => csvEscape env (.str c))
  let lines := rows.map fun r =>
    String.intercalate "," (columns.map fun c => csvEscape env ((alookup c r).getD .undefined))
  String.intercalate "\n" (header :: lines)

/-- `exportCSV`: flatten the preview (dropping `undefined` markers), compute
the final header from the original columns minus the dropped ones, serialize. -/
def exportCSV (env : JSEnv) (ds : DatasetLike) (acts : List CleaningAction) : String :=
  let s := execute env acts (initState ds)
  objectsToCSV env (s.rows.map flattenRow) (finalColumnsOf acts ds.columns)

namespace QA

/-- `isMissing` (debug-qa): null, undefined, empty string or a NaN number. -/
def isMissingQ : JSVal → Bool
  | .null => true
  | .undefined => true
  | .str s => s == ""
  | .nan => true
  | _ => false

/-- `toNumber` (debug-qa): `Number(v)` with non-finite results collapsed to
NaN.  `Number` maps null to 0, booleans to 0/1, Dates to their instant and
strings through the trimmed numeric-literal parse. -/
def toNumber : JSVal → Option ℚ
  | .num q => some q
  | .nan => none
  | .null => some 0
  | .undefined => none
  | .bool b => some (if b then 1 else 0)
  | .date t => some t
  | .str s => jsNumber s

/-- Inferred column types of `analyzeColumns`. -/
inductive ColType where
  | numeric | categorical | date | text
deriving DecidableEq, Repr

/-- Type detection of `analyzeColumns` (debug-qa) for one column, applied to
the raw column values: filter out missing values, then `numeric` when more
than 80% of the remainder parse to a finite number, else `categorical` when
the distinct count is at most 50 or under a fifth of the values, else `date`
when some value parses as a date, else `text`. -/
def inferType (env : JSEnv) (raw : List JSVal) : ColType :=
  let values := raw.filter fun v => !(isMissingQ v)
  let uniqueCount := values.dedup.length
  let numericCount := ((values.map toNumber).filterMap id).length
  if (numericCount : ℚ) / (values.length : ℚ) > 0.8 then .numeric
  else if uniqueCount ≤ 50 ∨ (uniqueCount : ℚ) / (values.length : ℚ) < 0.2 then .categorical
  else if values.any fun v => (env.parseDate v).isSome then .date
  else .text

end QA

namespace Analytics

/-- `mean` (Analytics): sum over length, 0 on the empty array. -/
def meanA (a : List ℚ) : ℚ :=
  if a.length = 0 then 0 else a.foldl (· + ·) 0 / a.length

/-- Sample variance (Analytics): 0 for fewer than two points. -/
def varianceA (a : List ℚ) : ℚ :=
  if a.length < 2 then 0
  else (a.map fun x => (x - meanA a) ^ 2).foldl (· + ·) 0 / ((a.length : ℚ) - 1)

/-- `stdDev` (Analytics): square root of the sample variance. -/
noncomputable def stdDevA (a : List ℚ) : ℝ :=
  Real.sqrt (varianceA a)

open Classical in
/-- `zScoreOutliers`: empty when the standard deviation is zero, otherwise
the indices whose absolute standardized deviation exceeds the threshold. -/
noncomputable def zScoreOutliers (a : List ℚ) (threshold : ℚ) : List ℕ :=
  let m := meanA a
  let s := stdDevA a
  if s = 0 then [] else
  (List.range a.length).filter fun i =>
    decide ((threshold : ℝ) < |((a.getD i 0 - m : ℚ) : ℝ) / s|)

/-- Rational reformulation of the z-score filter used to evaluate
`zScoreOutliers` (see `zScoreOutliers_eq_rat`). -/
def zScoreOutliersQ (a : List ℚ) (threshold : ℚ) : List ℕ :=
  if varianceA a = 0 then [] else
  (List.range a.length).filter fun i =>
    decide (threshold ^ 2 * varianceA a < (a.getD i 0 - meanA a) ^ 2)

/-- A JS number in a profiler series: finite (`some`) or not (`none`). -/
abbrev JSNum := Option ℚ

/-- Contribution of index `i` to one of the five running sums of `pearson`:
pairs with a non-finite member are skipped (`continue`). -/
def contrib (x y : List JSNum) (f : ℚ → ℚ → ℚ) (i : ℕ) : ℚ :=
  match x.getD i none, y.getD i none with
  | some a, some b => f a b
  | _, _ => 0

open Classical in
/-- `pearson` (Analytics): `n` is the minimum length (skipped pairs
included); the five sums run over indices below `n` skipping non-finite
pairs; the result is `num / den` with `den = 0` (including the JS
`sqrt` NaN case) collapsing to 0. -/
noncomputable def pearson (x y : List JSNum) : ℝ :=
  let n := min x.length y.length
  if n < 2 then 0 else
  let sx := ∑ i in Finset.range n, contrib x y (fun a _ => a) i
  let sy := ∑ i in Finset.range n, contrib x y (fun _ b => b) i
  let sxx := ∑ i in Finset.range n, contrib x y (fun a _ => a * a) i
  let syy := ∑ i in Finset.range n, contrib x y (fun _ b => b * b) i
  let sxy := ∑ i in Finset.range n, contrib x y (fun a b => a * b) i
  let num : ℚ := n * sxy - sx * sy
  let den : ℝ := Real.sqrt (((n * sxx - sx * sx : ℚ) : ℝ) * ((n * syy - sy * sy : ℚ) : ℝ))
  if den = 0 then 0 else (num : ℝ) / den

open Classical in
/-- Modelled from the spec: the textbook Pearson correlation coefficient of
the index-aligned pairs, mean-centered form, 0 on a vanishing denominator. -/
noncomputable def pearsonSpec (xs ys : List ℚ) : ℝ :=
  let n := min xs.length ys.length
  let mx : ℚ := (∑ i in Finset.range n, xs.getD i 0) / n
  let my : ℚ := (∑ i in Finset.range n, ys.getD i 0) / n
  let dxy : ℚ := ∑ i in Finset.range n, (xs.getD i 0 - mx) * (ys.getD i 0 - my)
  let dx : ℚ := ∑ i in Finset.range n, (xs.getD i 0 - mx) ^ 2
  let dy : ℚ := ∑ i in Finset.range n, (ys.getD i 0 - my) ^ 2
  if Real.sqrt ((dx : ℝ) * (dy : ℝ)) = 0 then 0
  else (dxy : ℝ) / Real.sqrt ((dx : ℝ) * (dy : ℝ))

/-- Count of index-aligned pairs in which both members are finite (the pairs
the specification says `pearson` is computed over). -/
def countFinitePairs (x y : List JSNum) : ℕ :=
  ((List.range (min x.length y.length)).filter fun i =>
    (x.getD i none).isSome && (y.getD i none).isSome).length

end Analytics

/-- A change-flag test that succeeds forces value equality (the model records
Dates by instant, and `NaN === NaN` is false). -/
lemma jsEqB_eq {a b : JSVal} (h : jsEqB a b = true) : a = b := by
  cases a <;> cases b <;> simp_all [jsEqB]

/-- Simulation between an earlier and a later snapshot of one row: the flag
only ever rises, and an unchanged flag pins the value. -/
def RowSim (r r' : PreviewRow) : Prop :=
  ∀ k c', alookup k r' = some c' →
    ∃ c, alookup k r = some c ∧ (c.isChanged = true → c'.isChanged = true) ∧
      (c'.isChanged = false → c'.value = c.value)

/-- Row simulation lifted to row lists: every surviving row descends from an
input row. -/
def StateSim (rows rows' : List PreviewRow) : Prop :=
  ∀ r' ∈ rows', ∃ r ∈ rows, RowSim r r'

lemma rowSim_refl (r : PreviewRow) : RowSim r r :=
  fun _ c' h => ⟨c', h, id, fun _ => rfl⟩

lemma rowSim_trans {r₁ r₂ r₃ : PreviewRow} (h₁ : RowSim r₁ r₂) (h₂ : RowSim r₂ r₃) :
    RowSim r₁ r₃ := by
  intro k c₃ h₃
  obtain ⟨c₂, hl₂, hmono₂, hval₂⟩ := h₂ k c₃ h₃
  obtain ⟨c₁, hl₁, hmono₁, hval₁⟩ := h₁ k c₂ hl₂
  refine ⟨c₁, hl₁, fun h => hmono₂ (hmono₁ h), fun h => ?_⟩
  have hc₂ : c₂.isChanged = false := by
    cases hc : c₂.isChanged
    · rfl
    · exact absurd (hmono₂ hc) (by simp [h])
  rw [hval₂ h, hval₁ hc₂]

lemma stateSim_refl (rows : List PreviewRow) : StateSim rows rows :=
  fun r hr => ⟨r, hr, rowSim_refl r⟩

lemma stateSim_trans {l₁ l₂ l₃ : List PreviewRow} (h₁ : StateSim l₁ l₂)
    (h₂ : StateSim l₂ l₃) : StateSim l₁ l₃ := by
  intro r₃ hr₃
  obtain ⟨r₂, hr₂, hs₂⟩ := h₂ r₃ hr₃
  obtain ⟨r₁, hr₁, hs₁⟩ := h₁ r₂ hr₂
  exact ⟨r₁, hr₁, rowSim_trans hs₁ hs₂⟩

/-- Lookup through `updCell` at the target key reads the transformed cell. -/
lemma alookup_updCell_self (r : PreviewRow) (k : String) (g : PreviewCell → PreviewCell) :
    alookup k (updCell r k g) = (alookup k r).map g := by
  induction r with
  | nil => simp [updCell, alookup]
  | cons p ps ih =>
    by_cases hpk : p.1 = k
    · simp [updCell, alookup, hpk]
    · simp only [updCell, List.map_cons, if_neg hpk]
      simp only [updCell] at ih
      simp [alookup, hpk, ih]

/-- Lookup through `updCell` away from the target key is unchanged. -/
lemma alookup_updCell_ne (r : PreviewRow) (k : String) (g : PreviewCell → PreviewCell)
    (k' : String) (h : k' ≠ k) :
    alookup k' (updCell r k g) = alookup k' r := by
  induction r with
  | nil => simp [updCell, alookup]
  | cons p ps ih =>
    by_cases hpk : p.1 = k
    · have hk : ¬ (k : String) = k' := fun hh => h hh.symm
      have hpk' : ¬ p.1 = k' := by rw [hpk]; exact hk
      simp only [updCell, List.map_cons, if_pos hpk]
      simp only [updCell] at ih
      simp [alookup, hk, hpk', ih]
    · simp only [updCell, List.map_cons, if_neg hpk]
      simp only [updCell] at ih
      simp [alookup, ih]

/-- Generic simulation step for an in-place cell update whose transform is
flag-monotone and value-preserving on unchanged flags. -/
lemma rowSim_updCell (r : PreviewRow) (k : String) (g : PreviewCell → PreviewCell)
    (hg : ∀ c, (c.isChanged = true → (g c).isChanged = true) ∧
      ((g c).isChanged = false → (g c).value = c.value)) :
    RowSim r (updCell r k g) := by
  intro k' c' h
  by_cases hk : k' = k
  · subst hk
    rw [alookup_updCell_self] at h
    match hl : alookup k' r with
    | none => rw [hl] at h; simp at h
    | some c =>
      rw [hl] at h
      simp only [Option.map_some'] at h
      obtain rfl : g c = c' := by injection h
      exact ⟨c, rfl, (hg c).1, fun hf => (hg c).2 hf⟩
  · rw [alookup_updCell_ne _ _ _ _ hk] at h
    exact ⟨c', h, id, fun _ => rfl⟩

lemma rowSim_setCell (r : PreviewRow) (k : String) (v : JSVal) :
    RowSim r (setCell r k v) := by
  apply rowSim_updCell
  intro c
  constructor
  · intro h; simp [h]
  · intro h
    simp only [Bool.or_eq_false_iff, Bool.not_eq_false'] at h
    exact (jsEqB_eq h.2).symm

/-- Dropping a column is flag-monotone (it sets every flag). -/
lemma rowSim_dropCell (r : PreviewRow) (k : String) :
    RowSim r (updCell r k fun _ => ⟨.undefined, true⟩) := by
  apply rowSim_updCell
  intro c
  exact ⟨fun _ => rfl, fun h => by simp at h⟩

/-- Duplicate removal only keeps rows of the input. -/
lemma mem_dedupBy {f : PreviewRow → String} {l : List PreviewRow} {seen : List String}
    {r : PreviewRow} (h : r ∈ dedupBy f l seen) : r ∈ l := by
  induction l generalizing seen with
  | nil => simp [dedupBy] at h
  | cons x xs ih =>
    by_cases hx : f x ∈ seen
    · simp only [dedupBy, if_pos hx] at h
      exact List.mem_cons_of_mem _ (ih h)
    · simp only [dedupBy, if_neg hx] at h
      rcases List.mem_cons.1 h with h | h
      · exact h ▸ List.mem_cons_self _ _
      · exact List.mem_cons_of_mem _ (ih h)

/-- The numeric cache step never touches the rows. -/
lemma rows_ensureNumericCache (env : JSEnv) (s : ExecState) (col : String) :
    (ensureNumericCache env s col).2.rows = s.rows := by
  unfold ensureNumericCache
  cases alookup col s.cache <;> rfl

/-- Mapping a pointwise simulation over the rows. -/
lemma stateSim_map_of (rows : List PreviewRow) (f : PreviewRow → PreviewRow)
    (hf : ∀ r, RowSim r (f r)) : StateSim rows (rows.map f) := by
  intro r' hr'
  obtain ⟨r, hr, rfl⟩ := List.mem_map.1 hr'
  exact ⟨r, hr, hf r⟩

/-- Text transforms simulate: they either skip a row or go through `setCell`. -/
lemma stateSim_textTransform (env : JSEnv) (col : String) (f : String → String)
    (rows : List PreviewRow) : StateSim rows (textTransformRows env col f rows) := by
  apply stateSim_map_of
  intro row
  simp only [textTransformRows]
  split_ifs with h1 h2
  · exact rowSim_refl row
  · exact rowSim_refl row
  · exact rowSim_setCell row col _

/-- Every single action step is a simulation: surviving rows descend from
input rows with monotone flags and pinned unchanged values. -/
lemma stateSim_applyAction (env : JSEnv) (s : ExecState) (a : CleaningAction) :
    StateSim s.rows (applyAction env s a).rows := by
  cases ht : a.type with
  | removeDuplicates =>
    simp only [applyAction, ht]
    intro r' hr'
    exact ⟨r', mem_dedupBy hr', rowSim_refl r'⟩
  | fillMissing =>
    cases hstrat : a.payload.strategy.getD FillStrategy.zero with
    | zero =>
      simp only [applyAction, ht, hstrat]
      apply stateSim_map_of
      intro row
      cases alookup (a.payload.columnName.getD "undefined") row with
      | none => exact rowSim_refl row
      | some cell =>
        by_cases h : isNullish cell.value
        · simp only [h, if_true]
          exact rowSim_setCell row _ _
        · simp only [h]
          exact rowSim_refl row
    | custom =>
      simp only [applyAction, ht, hstrat]
      apply stateSim_map_of
      intro row
      cases alookup (a.payload.columnName.getD "undefined") row with
      | none => exact rowSim_refl row
      | some cell =>
        by_cases h : isNullish cell.value
        · simp only [h, if_true]
          exact rowSim_setCell row _ _
        · simp only [h]
          exact rowSim_refl row
    | mean =>
      simp only [applyAction, ht, hstrat]
      rw [rows_ensureNumericCache]
      apply stateSim_map_of
      intro row
      cases alookup (a.payload.columnName.getD "undefined") row with
      | none => exact rowSim_refl row
      | some cell =>
        by_cases h : isNullish cell.value
        · simp only [h, if_true]
          exact rowSim_setCell row _ _
        · simp only [h]
          exact rowSim_refl row
    | median =>
      simp only [applyAction, ht, hstrat]
      rw [rows_ensureNumericCache]
      apply stateSim_map_of
      intro row
      cases alookup (a.payload.columnName.getD "undefined") row with
      | none => exact rowSim_refl row
      | some cell =>
        by_cases h : isNullish cell.value
        · simp only [h, if_true]
          exact rowSim_setCell row _ _
        · simp only [h]
          exact rowSim_refl row
  | changeType =>
    simp only [applyAction, ht]
    apply stateSim_map_of
    intro row
    cases alookup (a.payload.columnName.getD "undefined") row with
    | none => exact rowSim_refl row
    | some cell => exact rowSim_setCell row _ _
  | dropColumn =>
    simp only [applyAction, ht]
    apply stateSim_map_of
    intro row
    exact rowSim_dropCell row _
  | trimWhitespace =>
    simp only [applyAction, ht]
    exact stateSim_textTransform env _ _ s.rows
  | lowercase =>
    simp only [applyAction, ht]
    exact stateSim_textTransform env _ _ s.rows
  | uppercase =>
    simp only [applyAction, ht]
    exact stateSim_textTransform env _ _ s.rows
  | removeNonAlphanum =>
    simp only [applyAction, ht]
    exact stateSim_textTransform env _ _ s.rows
  | capitalizeWords =>
    simp only [applyAction, ht]
    exact stateSim_textTransform env _ _ s.rows
  | replaceSubstring =>
    simp only [applyAction, ht]
    apply stateSim_map_of
    intro row
    split_ifs with h1 h2
    · exact rowSim_refl row
    · exact rowSim_refl row
    · exact rowSim_setCell row _ _
  | extractDatePart =>
    simp only [applyAction, ht]
    apply stateSim_map_of
    intro row
    cases a.payload.part with
    | none => exact rowSim_refl row
    | some p =>
      cases toDateOrNull env (lookupVal row (a.payload.columnName.getD "undefined")) with
      | none => exact rowSim_refl row
      | some t => exact rowSim_setCell row _ _
  | numberRound =>
    simp only [applyAction, ht]
    apply stateSim_map_of
    intro row
    cases parseNumberLike env (lookupVal row (a.payload.columnName.getD "undefined")) with
    | none => exact rowSim_refl row
    | some v => exact rowSim_setCell row _ _
  | numberScale =>
    simp only [applyAction, ht]
    cases hf : ((s.rows.map fun r =>
        parseNumberLike env (lookupVal r (a.payload.columnName.getD "undefined"))).filterMap id) with
    | nil => exact stateSim_refl s.rows
    | cons f rest =>
      apply stateSim_map_of
      intro row
      cases parseNumberLike env (lookupVal row (a.payload.columnName.getD "undefined")) with
      | none => exact rowSim_refl row
      | some v => exact rowSim_setCell row _ _

/-- Whole-queue simulation: rows surviving the fold descend from rows of the
start state, with monotone flags and pinned unchanged values. -/
lemma stateSim_execute (env : JSEnv) (acts : List CleaningAction) (s : ExecState) :
    StateSim s.rows (execute env acts s).rows := by
  induction acts generalizing s with
  | nil => exact stateSim_refl s.rows
  | cons a rest ih =>
    exact stateSim_trans (stateSim_applyAction env s a) (ih (applyAction env s a))

/-- Looking up a wrapped original row reads the original value with a cleared
flag. -/
lemma alookup_initWrap (r : List (String × JSVal)) (k : String) :
    alookup k (r.map fun p => (p.1, (⟨p.2, false⟩ : PreviewCell)))
      = (alookup k r).map fun v => ⟨v, false⟩ := by
  induction r with
  | nil => simp [alookup]
  | cons p ps ih =>
    by_cases hpk : p.1 = k
    · simp [alookup, hpk]
    · simp [alookup, hpk, ih]

/-- Sample dataset for witnesses: one row, a string column and a numeric
column. -/
def sampleDS : DatasetLike :=
  ⟨["a", "b"], [[("a", .str "x"), ("b", .num 1)]]⟩

/-- An uppercase action on column `a`. -/
def sampleUpper : CleaningAction :=
  { type := .uppercase, payload := { columnName := some "a" } }

/-- A lowercase action on column `a`. -/
def sampleLower : CleaningAction :=
  { type := .lowercase, payload := { columnName := some "a" } }

/-- C9: The pipeline executor is deterministic: executing the same queue over
the same dataset twice yields identical preview rows, change flags and
aggregate stats.  The executor is modelled as a pure function of the host
environment, the dataset and the queue (the only nondeterministic host calls
in the source, `Date.now`/`Math.random`, occur in action-id generation, not
in execution), so the two runs are definitionally the same value. -/
theorem claim_C9_determinism (env : JSEnv) (ds : DatasetLike) (acts : List CleaningAction) :
    previewOf env ds acts = previewOf env ds acts ∧
    execute env acts (initState ds) = execute env acts (initState ds) :=
  ⟨rfl, rfl⟩

/-- C10: the change flag is monotone along the fold.  `setCell` compares only
against the immediately preceding value and ORs the result with the existing
flag; consequently every row surviving a queue descends from a start row in
which any cell already marked changed stays marked changed. -/
theorem claim_C10_monotone_flags :
    (∀ (r : PreviewRow) (k : String) (v : JSVal),
      alookup k (setCell r k v) = (alookup k r).map fun c =>
        ⟨v, c.isChanged || !(jsEqB c.value v)⟩) ∧
    (∀ (env : JSEnv) (acts : List CleaningAction) (s : ExecState),
      ∀ r' ∈ (execute env acts s).rows, ∃ r ∈ s.rows,
        ∀ k c c', alookup k r = some c → alookup k r' = some c' →
          c.isChanged = true → c'.isChanged = true) := by
  constructor
  · intro r k v
    exact alookup_updCell_self r k _
  · intro env acts s r' hr'
    obtain ⟨r, hr, hsim⟩ := stateSim_execute env acts s r' hr'
    refine ⟨r, hr, ?_⟩
    intro k c c' hc hc' hch
    obtain ⟨c₂, hl₂, hmono, _⟩ := hsim k c' hc'
    rw [hc] at hl₂
    injection hl₂ with h₂
    exact hmono (h₂ ▸ hch)

/-- Witness for C10 at a concrete input: a cell already marked changed before
an uppercase step stays marked afterwards. -/
theorem claim_C10_witness :
    (([("a", (⟨.str "X", true⟩ : PreviewCell))] : PreviewRow)
      ∈ (execute env0 [sampleUpper] ⟨[[("a", ⟨.str "x", true⟩)]], []⟩).rows) ∧
    (∃ r ∈ (⟨[[("a", ⟨.str "x", true⟩)]], []⟩ : ExecState).rows,
      ∀ k c c', alookup k r = some c →
        alookup k ([("a", (⟨.str "X", true⟩ : PreviewCell))] : PreviewRow) = some c' →
        c.isChanged = true → c'.isChanged = true) :=
  ⟨by decide, claim_C10_monotone_flags.2 env0 [sampleUpper] _ _ (by decide)⟩

/-- C1 (amended): the change flag is an over-approximation of "differs from
the original": whenever a surviving cell has `isChanged = false`, its value is
the original dataset's value at that position.  Contrapositively, a cell whose
final value differs from the original is always marked changed; the converse
direction of the claim fails (see the counterexample). -/
theorem claim_C1_changed_flag (env : JSEnv) (ds : DatasetLike) (acts : List CleaningAction) :
    ∀ r' ∈ (execute env acts (initState ds)).rows, ∃ r₀ ∈ ds.data,
      ∀ k c', alookup k r' = some c' → c'.isChanged = false →
        alookup k r₀ = some c'.value := by
  intro r' hr'
  obtain ⟨r, hr, hsim⟩ := stateSim_execute env acts (initState ds) r' hr'
  obtain ⟨r₀, hr₀, rfl⟩ := List.mem_map.1 hr
  refine ⟨r₀, hr₀, ?_⟩
  intro k c' hc' hflag
  obtain ⟨c, hl, _, hval⟩ := hsim k c' hc'
  rw [alookup_initWrap] at hl
  match hl0 : alookup k r₀ with
  | none => rw [hl0] at hl; simp at hl
  | some v =>
    rw [hl0] at hl
    simp only [Option.map_some'] at hl
    injection hl with h
    rw [hval hflag, ← h]

/-- Witness for C1 at a concrete input: after uppercasing column `a`, the
untouched cell `b` keeps `isChanged = false` and the theorem recovers its
original value. -/
theorem claim_C1_witness :
    (([("a", (⟨.str "X", true⟩ : PreviewCell)), ("b", ⟨.num 1, false⟩)] : PreviewRow)
      ∈ (execute env0 [sampleUpper] (initState sampleDS)).rows) ∧
    (∃ r₀ ∈ sampleDS.data, ∀ k c',
      alookup k ([("a", (⟨.str "X", true⟩ : PreviewCell)), ("b", ⟨.num 1, false⟩)] : PreviewRow)
        = some c' → c'.isChanged = false → alookup k r₀ = some c'.value) :=
  ⟨by decide, claim_C1_changed_flag env0 sampleDS [sampleUpper] _ (by decide)⟩

/-- Counterexample to C1 as stated: uppercasing and then lowercasing column
`a` restores the original value `"x"`, yet the final flag is `true`, so
`isChanged` is not equivalent to "differs from the original value". -/
theorem claim_C1_counterexample :
    (execute env0 [sampleUpper, sampleLower] (initState sampleDS)).rows
      = [[("a", ⟨.str "x", true⟩), ("b", ⟨.num 1, false⟩)]] ∧
    alookup "a" (sampleDS.data.getD 0 []) = some (.str "x") :=
  ⟨by decide, by decide⟩

/-- A successful lookup is a member with the looked-up key. -/
lemma alookup_mem {α : Type} {l : List (String × α)} {k : String} {v : α}
    (h : alookup k l = some v) : (k, v) ∈ l := by
  induction l with
  | nil => simp [alookup] at h
  | cons p ps ih =>
    by_cases hpk : p.1 = k
    · rw [alookup, if_pos hpk] at h
      injection h with h
      have : (k, v) = p := by rw [← hpk, ← h]
      exact this ▸ List.mem_cons_self _ _
    · rw [alookup, if_neg hpk] at h
      exact List.mem_cons_of_mem _ (ih h)

/-- Every cell of this row stored under `col` carries the drop marker. -/
def RowColDropped (col : String) (row : PreviewRow) : Prop :=
  ∀ p ∈ row, p.1 = col → p.2.value = JSVal.undefined

/-- Every row stores only drop markers under `col`. -/
def ColDropped (col : String) (rows : List PreviewRow) : Prop :=
  ∀ r ∈ rows, RowColDropped col r

/-- Reading a fully-dropped column gives `undefined` (also when the key is
absent). -/
lemma lookupVal_dropped {row : PreviewRow} {col : String} (h : RowColDropped col row) :
    lookupVal row col = .undefined := by
  unfold lookupVal
  cases halo : alookup col row with
  | none => rfl
  | some cell => exact h _ (alookup_mem halo) rfl

/-- Updating a different key preserves the drop marker of `col`. -/
lemma rowColDropped_updCell_ne {row : PreviewRow} {col k : String}
    {g : PreviewCell → PreviewCell} (hk : k ≠ col) (h : RowColDropped col row) :
    RowColDropped col (updCell row k g) := by
  intro p' hp' hcol
  obtain ⟨p, hp, rfl⟩ := List.mem_map.1 hp'
  by_cases hpk : p.1 = k
  · rw [if_pos hpk] at hcol ⊢
    exact absurd hcol hk
  · rw [if_neg hpk] at hcol ⊢
    exact h p hp hcol

/-- Writing the drop marker preserves (or establishes) it at any key. -/
lemma rowColDropped_updCell_drop {row : PreviewRow} {col k : String}
    (h : RowColDropped col row) :
    RowColDropped col (updCell row k fun _ => ⟨.undefined, true⟩) := by
  intro p' hp' hcol
  obtain ⟨p, hp, rfl⟩ := List.mem_map.1 hp'
  by_cases hpk : p.1 = k
  · rw [if_pos hpk]
  · rw [if_neg hpk] at hcol ⊢
    exact h p hp hcol

/-- The rows produced by a `FILL_MISSING` step, for some replacement value
(whose exact value depends on the strategy and the cache). -/
lemma applyAction_fill_rows (env : JSEnv) (s : ExecState) (a : CleaningAction)
    (h : a.type = .fillMissing) :
    ∃ repl, (applyAction env s a).rows = s.rows.map fun row =>
      match alookup (a.payload.columnName.getD "undefined") row with
      | none => row
      | some cell =>
        if isNullish cell.value then
          setCell row (a.payload.columnName.getD "undefined") repl
        else row := by
  cases hstrat : a.payload.strategy.getD FillStrategy.zero with
  | zero => exact ⟨.num 0, by simp only [applyAction, h, hstrat]⟩
  | custom => exact ⟨a.payload.customValue.getD .undefined, by simp only [applyAction, h, hstrat]⟩
  | mean =>
    refine ⟨match meanOpt (ensureNumericCache env s (a.payload.columnName.getD "undefined")).1 with
      | some m => JSVal.num m | none => JSVal.num 0, ?_⟩
    simp only [applyAction, h, hstrat, rows_ensureNumericCache]
  | median =>
    refine ⟨match medianOpt (ensureNumericCache env s (a.payload.columnName.getD "undefined")).1 with
      | some m => JSVal.num m | none => JSVal.num 0, ?_⟩
    simp only [applyAction, h, hstrat, rows_ensureNumericCache]

/-- One action step preserves a fully-dropped column, provided the step is not
a fill-missing or type-change targeting that column (those two can resurrect
it, see the C5 counterexample). -/
lemma colDropped_applyAction (env : JSEnv) (s : ExecState) (a : CleaningAction) (col : String)
    (ha : ¬ ((a.type = ActionType.fillMissing ∨ a.type = ActionType.changeType) ∧
      a.payload.columnName.getD "undefined" = col))
    (h : ColDropped col s.rows) : ColDropped col (applyAction env s a).rows := by
  cases ht : a.type with
  | removeDuplicates =>
    simp only [applyAction, ht]
    intro r' hr'
    exact h r' (mem_dedupBy hr')
  | fillMissing =>
    have hkcol : a.payload.columnName.getD "undefined" ≠ col := fun hc => ha ⟨Or.inl ht, hc⟩
    obtain ⟨repl, hrows⟩ := applyAction_fill_rows env s a ht
    rw [hrows]
    intro r' hr'
    obtain ⟨row, hrow, rfl⟩ := List.mem_map.1 hr'
    cases alookup (a.payload.columnName.getD "undefined") row with
    | none => exact h row hrow
    | some cell =>
      by_cases hn : isNullish cell.value
      · simp only [hn, if_true]
        exact rowColDropped_updCell_ne hkcol (h row hrow)
      · simp only [hn]
        exact h row hrow
  | changeType =>
    have hkcol : a.payload.columnName.getD "undefined" ≠ col := fun hc => ha ⟨Or.inr ht, hc⟩
    simp only [applyAction, ht]
    intro r' hr'
    obtain ⟨row, hrow, rfl⟩ := List.mem_map.1 hr'
    cases alookup (a.payload.columnName.getD "undefined") row with
    | none => exact h row hrow
    | some cell => exact rowColDropped_updCell_ne hkcol (h row hrow)
  | dropColumn =>
    simp only [applyAction, ht]
    intro r' hr'
    obtain ⟨row, hrow, rfl⟩ := List.mem_map.1 hr'
    exact rowColDropped_updCell_drop (h row hrow)
  | trimWhitespace =>
    simp only [applyAction, ht, textTransformRows]
    intro r' hr'
    obtain ⟨row, hrow, rfl⟩ := List.mem_map.1 hr'
    by_cases hkcol : a.payload.columnName.getD "undefined" = col
    · rw [hkcol, lookupVal_dropped (h row hrow)]
      simpa [jsLooseNull] using h row hrow
    · split_ifs
      · exact h row hrow
      · exact h row hrow
      · exact rowColDropped_updCell_ne hkcol (h row hrow)
  | lowercase =>
    simp only [applyAction, ht, textTransformRows]
    intro r' hr'
    obtain ⟨row, hrow, rfl⟩ := List.mem_map.1 hr'
    by_cases hkcol : a.payload.columnName.getD "undefined" = col
    · rw [hkcol, lookupVal_dropped (h row hrow)]
      simpa [jsLooseNull] using h row hrow
    · split_ifs
      · exact h row hrow
      · exact h row hrow
      · exact rowColDropped_updCell_ne hkcol (h row hrow)
  | uppercase =>
    simp only [applyAction, ht, textTransformRows]
    intro r' hr'
    obtain ⟨row, hrow, rfl⟩ := List.mem_map.1 hr'
    by_cases hkcol : a.payload.columnName.getD "undefined" = col
    · rw [hkcol, lookupVal_dropped (h row hrow)]
      simpa [jsLooseNull] using h row hrow
    · split_ifs
      · exact h row hrow
      · exact h row hrow
      · exact rowColDropped_updCell_ne hkcol (h row hrow)
  | removeNonAlphanum =>
    simp only [applyAction, ht, textTransformRows]
    intro r' hr'
    obtain ⟨row, hrow, rfl⟩ := List.mem_map.1 hr'
    by_cases hkcol : a.payload.columnName.getD "undefined" = col
    · rw [hkcol, lookupVal_dropped (h row hrow)]
      simpa [jsLooseNull] using h row hrow
    · split_ifs
      · exact h row hrow
      · exact h row hrow
      · exact rowColDropped_updCell_ne hkcol (h row hrow)
  | capitalizeWords =>
    simp only [applyAction, ht, textTransformRows]
    intro r' hr'
    obtain ⟨row, hrow, rfl⟩ := List.mem_map.1 hr'
    by_cases hkcol : a.payload.columnName.getD "undefined" = col
    · rw [hkcol, lookupVal_dropped (h row hrow)]
      simpa [jsLooseNull] using h row hrow
    · split_ifs
      · exact h row hrow
      · exact h row hrow
      · exact rowColDropped_updCell_ne hkcol (h row hrow)
  | replaceSubstring =>
    simp only [applyAction, ht]
    intro r' hr'
    obtain ⟨row, hrow, rfl⟩ := List.mem_map.1 hr'
    by_cases hkcol : a.payload.columnName.getD "undefined" = col
    · rw [hkcol, lookupVal_dropped (h row hrow)]
      simpa [jsLooseNull] using h row hrow
    · split_ifs
      · exact h row hrow
      · exact h row hrow
      · exact rowColDropped_updCell_ne hkcol (h row hrow)
  | extractDatePart =>
    simp only [applyAction, ht]
    intro r' hr'
    obtain ⟨row, hrow, rfl⟩ := List.mem_map.1 hr'
    cases a.payload.part with
    | none => exact h row hrow
    | some p =>
      by_cases hkcol : a.payload.columnName.getD "undefined" = col
      · rw [hkcol, lookupVal_dropped (h row hrow)]
        simpa [toDateOrNull, env.parseDate_undefined] using h row hrow
      · cases toDateOrNull env (lookupVal row (a.payload.columnName.getD "undefined")) with
        | none => exact h row hrow
        | some t => exact rowColDropped_updCell_ne hkcol (h row hrow)
  | numberRound =>
    simp only [applyAction, ht]
    intro r' hr'
    obtain ⟨row, hrow, rfl⟩ := List.mem_map.1 hr'
    by_cases hkcol : a.payload.columnName.getD "undefined" = col
    · rw [hkcol, lookupVal_dropped (h row hrow)]
      simpa [parseNumberLike] using h row hrow
    · cases parseNumberLike env (lookupVal row (a.payload.columnName.getD "undefined")) with
      | none => exact h row hrow
      | some v => exact rowColDropped_updCell_ne hkcol (h row hrow)
  | numberScale =>
    simp only [applyAction, ht]
    cases hf : ((s.rows.map fun r =>
        parseNumberLike env (lookupVal r (a.payload.columnName.getD "undefined"))).filterMap id) with
    | nil => exact h
    | cons f rest =>
      intro r' hr'
      obtain ⟨row, hrow, rfl⟩ := List.mem_map.1 hr'
      by_cases hkcol : a.payload.columnName.getD "undefined" = col
      · rw [hkcol, lookupVal_dropped (h row hrow)]
        simpa [parseNumberLike] using h row hrow
      · cases parseNumberLike env (lookupVal row (a.payload.columnName.getD "undefined")) with
        | none => exact h row hrow
        | some v => exact rowColDropped_updCell_ne hkcol (h row hrow)

/-- Dropping a column establishes the marker at its own key. -/
lemma rowColDropped_drop_self (row : PreviewRow) (col : String) :
    RowColDropped col (updCell row col fun _ => ⟨.undefined, true⟩) := by
  intro p' hp' hcol
  obtain ⟨p, hp, rfl⟩ := List.mem_map.1 hp'
  by_cases hpk : p.1 = col
  · rw [if_pos hpk]
  · rw [if_neg hpk] at hcol
    exact absurd hcol hpk

/-- A `DROP_COLUMN` step leaves every cell of its target column marked
`undefined`. -/
lemma colDropped_drop (env : JSEnv) (s : ExecState) (a : CleaningAction) (c : String)
    (hat : a.type = .dropColumn) (hac : a.payload.columnName = some c) :
    ColDropped c (applyAction env s a).rows := by
  simp only [applyAction, hat, hac, Option.getD_some]
  intro r' hr'
  obtain ⟨row, hrow, rfl⟩ := List.mem_map.1 hr'
  exact rowColDropped_drop_self row c

/-- A queue free of fill-missing / change-type steps on `col` preserves a
fully-dropped column. -/
lemma colDropped_execute (env : JSEnv) (acts : List CleaningAction) (s : ExecState)
    (col : String)
    (hacts : ∀ b ∈ acts, ¬ ((b.type = ActionType.fillMissing ∨ b.type = ActionType.changeType) ∧
      b.payload.columnName.getD "undefined" = col))
    (h : ColDropped col s.rows) : ColDropped col (execute env acts s).rows := by
  induction acts generalizing s with
  | nil => exact h
  | cons b rest ih =>
    exact ih (applyAction env s b)
      (fun x hx => hacts x (List.mem_cons_of_mem _ hx))
      (colDropped_applyAction env s b col (hacts b (List.mem_cons_self _ _)) h)

/-- Flattening omits every key of a fully-dropped column. -/
lemma alookup_flattenRow_none {r : PreviewRow} {col : String} (h : RowColDropped col r) :
    alookup col (flattenRow r) = none := by
  induction r with
  | nil => rfl
  | cons p ps ih =>
    have hps : RowColDropped col ps := fun q hq => h q (List.mem_cons_of_mem _ hq)
    by_cases hv : p.2.value = .undefined
    · simp only [flattenRow, List.filterMap_cons, hv, if_true]
      exact ih hps
    · have hpk : p.1 ≠ col := fun hk => hv (h p (List.mem_cons_self _ _) hk)
      simp only [flattenRow, List.filterMap_cons, hv, if_neg hv]
      simp only [alookup, hpk, if_false]
      exact ih hps

/-- A dropped (truthy-named) column never appears in the export header. -/
lemma not_mem_finalColumnsOf {acts : List CleaningAction} {cols : List String}
    {c : String} {a : CleaningAction} (ha : a ∈ acts) (hat : a.type = .dropColumn)
    (hac : a.payload.columnName = some c) (hc : c ≠ "") :
    c ∉ finalColumnsOf acts cols := by
  intro hmem
  have hfilter := (List.mem_filter.1 hmem).2
  have hdrop : droppedBy acts c = true :=
    List.any_eq_true.2 ⟨a, ha, by simp [hat, hac, colFalsy, hc]⟩
  rw [hdrop] at hfilter
  simp at hfilter

/-- C5 (amended): after a queue that drops column `c` and contains no later
fill-missing or change-type step targeting `c`, every preview row carries the
`undefined` marker at `c`, flattened rows omit `c`, and `c` is excluded from
the exported header, which is the original column order minus all dropped
columns.  (A later fill or type change on `c` can resurrect the column in the
rows, see the counterexample; the header exclusion holds for every queue
containing the drop.) -/
theorem claim_C5_drop_column (env : JSEnv) (ds : DatasetLike)
    (acts₁ acts₂ : List CleaningAction) (a : CleaningAction) (c : String)
    (hat : a.type = .dropColumn) (hac : a.payload.columnName = some c) (hc : c ≠ "")
    (h₂ : ∀ b ∈ acts₂,
      ¬ ((b.type = ActionType.fillMissing ∨ b.type = ActionType.changeType) ∧
        b.payload.columnName.getD "undefined" = c)) :
    (∀ r ∈ (execute env (acts₁ ++ a :: acts₂) (initState ds)).rows,
      RowColDropped c r ∧ alookup c (flattenRow r) = none) ∧
    c ∉ finalColumnsOf (acts₁ ++ a :: acts₂) ds.columns := by
  have hsplit : execute env (acts₁ ++ a :: acts₂) (initState ds)
      = execute env acts₂ (applyAction env (execute env acts₁ (initState ds)) a) := by
    simp [execute, List.foldl_append]
  constructor
  · intro r hr
    rw [hsplit] at hr
    have hC : ColDropped c (execute env acts₂
        (applyAction env (execute env acts₁ (initState ds)) a)).rows :=
      colDropped_execute env acts₂ _ c h₂
        (colDropped_drop env _ a c hat hac)
    exact ⟨hC r hr, alookup_flattenRow_none (hC r hr)⟩
  · exact not_mem_finalColumnsOf
      (List.mem_append_right acts₁ (List.mem_cons_self a acts₂)) hat hac hc

/-- Sample dataset with a single droppable column. -/
def sampleDropDS : DatasetLike := ⟨["c"], [[("c", .num 1)]]⟩

/-- The drop action on column `c`. -/
def sampleDropC : CleaningAction :=
  { type := .dropColumn, payload := { columnName := some "c" } }

/-- A zero-fill action on column `c`. -/
def sampleFillC : CleaningAction :=
  { type := .fillMissing, payload := { columnName := some "c", strategy := some .zero } }

/-- Witness for C5 at a concrete input: dropping `c` with no later fill or
type change leaves `c` marked, flattened away and out of the header. -/
theorem claim_C5_witness :
    (∀ r ∈ (execute env0 ([] ++ sampleDropC :: []) (initState sampleDropDS)).rows,
      RowColDropped "c" r ∧ alookup "c" (flattenRow r) = none) ∧
    "c" ∉ finalColumnsOf ([] ++ sampleDropC :: []) sampleDropDS.columns :=
  claim_C5_drop_column env0 sampleDropDS [] [] sampleDropC "c" rfl rfl
    (by decide) (by intro b hb; simp at hb)

/-- Counterexample to C5 as stated: the queue `[drop c, fill-missing c]`
contains an action dropping `c`, yet after the whole queue the flattened row
still has an effective key `c` (the fill resurrects the dropped cells), so
`c` is not absent from every PreviewRow's effective keys. -/
theorem claim_C5_counterexample :
    ((execute env0 [sampleDropC, sampleFillC] (initState sampleDropDS)).rows.map flattenRow)
      = [[("c", .num 0)]] ∧
    alookup "c" (((execute env0 [sampleDropC, sampleFillC]
      (initState sampleDropDS)).rows.map flattenRow).getD 0 []) = some (.num 0) :=
  ⟨by decide, by decide⟩

/-- Sample fill action on column `age` (mean strategy). -/
def sampleFillAge : CleaningAction :=
  { type := .fillMissing, description := "Fill age",
    payload := { columnName := some "age", strategy := some .mean } }

/-- A second fill action on column `age` with a different strategy. -/
def sampleFillAge2 : CleaningAction :=
  { type := .fillMissing, description := "Fill age again",
    payload := { columnName := some "age", strategy := some .median } }

/-- A fill action on a different column. -/
def sampleFillSalary : CleaningAction :=
  { type := .fillMissing, description := "Fill salary",
    payload := { columnName := some "salary", strategy := some .zero } }

/-- C4: redundancy on proposal.  The handler is a total function (rejection is
a returned value, never an exception): a rejected proposal leaves the queue
unchanged and carries a human-readable reason, an accepted one appends.  A
fill-missing proposal on a column is redundant exactly when some queued action
of the same kind targets that column (so a second fill on the same column is
rejected while fills on two different columns both succeed); a
substring-replace proposal is redundant exactly when some queued replace has
the same column and the same find text (the replacement text plays no role);
a proposal without a target column is redundant exactly against a queued
remove-duplicates when it is itself the remove-duplicates kind — the only
kind the UI proposes without a column. -/
theorem claim_C4_redundancy :
    (∀ (q : List CleaningAction) (act : CleaningAction),
      handleAddAction q act
          = (q, some ("A similar \"" ++ act.description ++ "\" step already exists.")) ∨
        handleAddAction q act = (q ++ [act], none)) ∧
    (∀ (q : List CleaningAction) (act : CleaningAction),
      (handleAddAction q act).2 ≠ none → (handleAddAction q act).1 = q) ∧
    (∀ (q : List CleaningAction) (act : CleaningAction) (c : String),
      act.type = .fillMissing → act.payload.columnName = some c → c ≠ "" →
      (isRedundant q act = true ↔
        ∃ b ∈ q, b.type = ActionType.fillMissing ∧ b.payload.columnName = some c)) ∧
    (∀ (q : List CleaningAction) (act : CleaningAction) (c : String),
      act.type = .replaceSubstring → act.payload.columnName = some c → c ≠ "" →
      (isRedundant q act = true ↔
        ∃ b ∈ q, b.type = ActionType.replaceSubstring ∧ b.payload.columnName = some c ∧
          b.payload.find = act.payload.find)) ∧
    (∀ (q : List CleaningAction) (act : CleaningAction),
      act.type = .removeDuplicates → colFalsy act.payload.columnName = true →
      (isRedundant q act = true ↔ ∃ b ∈ q, b.type = ActionType.removeDuplicates)) := by
  refine ⟨?_, ?_, ?_, ?_, ?_⟩
  · intro q act
    unfold handleAddAction
    by_cases h : isRedundant q act = true
    · left; rw [if_pos h]
    · right; rw [if_neg h]
  · intro q act h
    unfold handleAddAction at h ⊢
    by_cases hr : isRedundant q act = true
    · rw [if_pos hr]
    · rw [if_neg hr] at h
      simp at h
  · intro q act c hat hac hc
    have hcf : colFalsy (some c) = false := by simp [colFalsy, hc]
    unfold isRedundant
    rw [List.any_eq_true]
    constructor
    · rintro ⟨b, hb, hpred⟩
      by_cases hbt : b.type = act.type
      · rw [hat] at hbt
        simp only [hbt, hat, hac, hcf, colFalsy] at hpred
        simp only [ne_eq, not_true_eq_false, if_false, Bool.false_eq_true, if_true,
          beq_iff_eq] at hpred
        refine ⟨b, hb, hbt, ?_⟩
        simp at hpred
        exact hpred.2
      · simp only [ne_eq, hbt, not_false_eq_true, if_true] at hpred
        exact absurd hpred (by simp)
    · rintro ⟨b, hb, hbt, hbc⟩
      refine ⟨b, hb, ?_⟩
      simp [hat, hbt, hac, hbc, hcf]
  · intro q act c hat hac hc
    have hcf : colFalsy (some c) = false := by simp [colFalsy, hc]
    unfold isRedundant
    rw [List.any_eq_true]
    constructor
    · rintro ⟨b, hb, hpred⟩
      by_cases hbt : b.type = act.type
      · rw [hat] at hbt
        simp only [hbt, hat, hac, hcf] at hpred
        simp only [ne_eq, not_true_eq_false, if_false, Bool.false_eq_true, if_true,
          Bool.and_eq_true, beq_iff_eq] at hpred
        exact ⟨b, hb, hbt, hpred.1, hpred.2⟩
      · simp only [ne_eq, hbt, not_false_eq_true, if_true] at hpred
        exact absurd hpred (by simp)
    · rintro ⟨b, hb, hbt, hbc, hbf⟩
      refine ⟨b, hb, ?_⟩
      simp [hat, hbt, hac, hbc, hbf, hcf]
  · intro q act hat hcf
    unfold isRedundant
    rw [List.any_eq_true]
    constructor
    · rintro ⟨b, hb, hpred⟩
      by_cases hbt : b.type = act.type
      · rw [hat] at hbt
        exact ⟨b, hb, hbt⟩
      · simp only [ne_eq, hbt, not_false_eq_true, if_true] at hpred
        exact absurd hpred (by simp)
    · rintro ⟨b, hb, hbt⟩
      refine ⟨b, hb, ?_⟩
      simp [hat, hbt, hcf]

/-- Witness for C4 at concrete inputs: a second fill on `age` (even with a
different strategy) is redundant and leaves the queue unchanged; a fill on
`salary` against a queue filling `age` is not redundant. -/
theorem claim_C4_witness :
    isRedundant [sampleFillAge] sampleFillAge2 = true ∧
    isRedundant [sampleFillAge] sampleFillSalary = false ∧
    (handleAddAction [sampleFillAge] sampleFillAge2).1 = [sampleFillAge] := by
  refine ⟨?_, ?_, ?_⟩
  · exact (claim_C4_redundancy.2.2.1 [sampleFillAge] sampleFillAge2 "age" rfl rfl
      (by decide)).mpr ⟨sampleFillAge, by decide, rfl, rfl⟩
  · have hiff := claim_C4_redundancy.2.2.1 [sampleFillAge] sampleFillSalary "salary" rfl rfl
      (by decide)
    cases h : isRedundant [sampleFillAge] sampleFillSalary
    · rfl
    · exact absurd (hiff.mp h) (by decide)
  · exact claim_C4_redundancy.2.1 [sampleFillAge] sampleFillAge2 (by decide)

/-- Only a mean/median fill on `col` can create or change the cache entry of
`col`. -/
lemma cache_applyAction (env : JSEnv) (s : ExecState) (a : CleaningAction) (col : String)
    (ha : ¬ (a.type = ActionType.fillMissing ∧ a.payload.columnName.getD "undefined" = col ∧
      (a.payload.strategy.getD .zero = FillStrategy.mean ∨
        a.payload.strategy.getD .zero = FillStrategy.median))) :
    alookup col (applyAction env s a).cache = alookup col s.cache := by
  cases ht : a.type with
  | removeDuplicates => simp only [applyAction, ht]
  | changeType => simp only [applyAction, ht]
  | dropColumn => simp only [applyAction, ht]
  | trimWhitespace => simp only [applyAction, ht]
  | lowercase => simp only [applyAction, ht]
  | uppercase => simp only [applyAction, ht]
  | removeNonAlphanum => simp only [applyAction, ht]
  | capitalizeWords => simp only [applyAction, ht]
  | replaceSubstring => simp only [applyAction, ht]
  | extractDatePart => simp only [applyAction, ht]
  | numberRound => simp only [applyAction, ht]
  | numberScale =>
    simp only [applyAction, ht]
    cases ((s.rows.map fun r =>
        parseNumberLike env (lookupVal r (a.payload.columnName.getD "undefined"))).filterMap id)
    · rfl
    · rfl
  | fillMissing =>
    cases hstrat : a.payload.strategy.getD FillStrategy.zero with
    | zero => simp only [applyAction, ht, hstrat]
    | custom => simp only [applyAction, ht, hstrat]
    | mean =>
      have hcol : a.payload.columnName.getD "undefined" ≠ col :=
        fun hcc => ha ⟨ht, hcc, Or.inl hstrat⟩
      simp only [applyAction, ht, hstrat]
      unfold ensureNumericCache
      cases alookup (a.payload.columnName.getD "undefined") s.cache with
      | some arr => rfl
      | none => simp [alookup, hcol]
    | median =>
      have hcol : a.payload.columnName.getD "undefined" ≠ col :=
        fun hcc => ha ⟨ht, hcc, Or.inr hstrat⟩
      simp only [applyAction, ht, hstrat]
      unfold ensureNumericCache
      cases alookup (a.payload.columnName.getD "undefined") s.cache with
      | some arr => rfl
      | none => simp [alookup, hcol]

/-- A queue without mean/median fills on `col` leaves the cache entry of
`col` alone. -/
lemma cache_execute (env : JSEnv) (acts : List CleaningAction) (s : ExecState) (col : String)
    (hacts : ∀ b ∈ acts,
      ¬ (b.type = ActionType.fillMissing ∧ b.payload.columnName.getD "undefined" = col ∧
        (b.payload.strategy.getD .zero = FillStrategy.mean ∨
          b.payload.strategy.getD .zero = FillStrategy.median))) :
    alookup col (execute env acts s).cache = alookup col s.cache := by
  induction acts generalizing s with
  | nil => rfl
  | cons b rest ih =>
    rw [execute, List.foldl_cons, ← execute]
    rw [ih (applyAction env s b) (fun x hx => hacts x (List.mem_cons_of_mem _ hx))]
    exact cache_applyAction env s b col (hacts b (List.mem_cons_self _ _))

/-- The column's current numeric-parseable finite values over the whole
preview (what the fill-mean strategy averages over at the moment it runs). -/
def colFinites (env : JSEnv) (rows : List PreviewRow) (c : String) : List ℚ :=
  (rows.map fun r => parseNumberLike env (lookupVal r c)).filterMap id

/-- A missing (nullish) value never compares equal to a number, so a fill
always raises the change flag. -/
lemma jsEqB_nullish_num {v : JSVal} {m : ℚ} (h : isNullish v = true) :
    jsEqB v (.num m) = false := by
  cases v <;> simp_all [isNullish, jsEqB]

/-- C2: a fill-missing action with the mean strategy, at the moment it runs
(no earlier mean/median fill on the column, which the queue's redundancy rule
rules out), replaces exactly the missing cells of its column with the mean of
the column's current numeric-parseable values ignoring non-finite entries, and
leaves every non-missing cell — and every other column — untouched. -/
theorem claim_C2_fill_mean (env : JSEnv) (ds : DatasetLike) (acts₁ : List CleaningAction)
    (a : CleaningAction) (c : String)
    (hat : a.type = .fillMissing) (hac : a.payload.columnName = some c)
    (hstrat : a.payload.strategy = some .mean)
    (h₁ : ∀ b ∈ acts₁, ¬ (b.type = ActionType.fillMissing ∧
      b.payload.columnName.getD "undefined" = c ∧
      (b.payload.strategy.getD .zero = FillStrategy.mean ∨
        b.payload.strategy.getD .zero = FillStrategy.median))) :
    ∀ (i : ℕ) (row : PreviewRow), (execute env acts₁ (initState ds)).rows[i]? = some row →
      ((∀ cell, alookup c row = some cell → isNullish cell.value = false) →
        (execute env (acts₁ ++ [a]) (initState ds)).rows[i]? = some row) ∧
      (∀ cell, alookup c row = some cell → isNullish cell.value = true →
        ∃ row', (execute env (acts₁ ++ [a]) (initState ds)).rows[i]? = some row' ∧
          alookup c row' = some ⟨.num
            (if (colFinites env (execute env acts₁ (initState ds)).rows c).length = 0 then 0
             else (colFinites env (execute env acts₁ (initState ds)).rows c).sum /
               (colFinites env (execute env acts₁ (initState ds)).rows c).length), true⟩ ∧
          ∀ k, k ≠ c → alookup k row' = alookup k row) := by
  set s₁ := execute env acts₁ (initState ds) with hs₁
  set F := colFinites env s₁.rows c with hF
  set repl : JSVal := .num (if F.length = 0 then 0 else F.sum / F.length) with hrepl
  have hsplit : execute env (acts₁ ++ [a]) (initState ds) = applyAction env s₁ a := by
    rw [hs₁]
    show (acts₁ ++ [a]).foldl (applyAction env) (initState ds) = _
    rw [List.foldl_append]
    rfl
  have hcache : alookup c s₁.cache = none := by
    rw [hs₁, cache_execute env acts₁ _ c h₁]
    rfl
  have hens : ensureNumericCache env s₁ c
      = (s₁.rows.map fun r => parseNumberLike env (lookupVal r c),
         { s₁ with cache := (c, s₁.rows.map fun r => parseNumberLike env (lookupVal r c))
            :: s₁.cache }) := by
    unfold ensureNumericCache
    rw [hcache]
  have hmean : (match meanOpt (s₁.rows.map fun r => parseNumberLike env (lookupVal r c)) with
      | some m => JSVal.num m | none => JSVal.num 0) = repl := by
    rw [hrepl, hF]
    unfold meanOpt colFinites
    by_cases hlen :
        (((s₁.rows.map fun r => parseNumberLike env (lookupVal r c)).filterMap id)).length = 0
    · rw [if_pos hlen, if_pos hlen]
    · rw [if_neg hlen, if_neg hlen, List.sum_eq_foldl]
  have hrows : (applyAction env s₁ a).rows = s₁.rows.map fun row =>
      match alookup c row with
      | none => row
      | some cell => if isNullish cell.value then setCell row c repl else row := by
    simp only [applyAction, hat, hac, hstrat, Option.getD_some, hens, hmean]
  intro i row hrow
  constructor
  · intro hnm
    rw [hsplit, hrows, List.getElem?_map, hrow, Option.map_some']
    cases halo : alookup c row with
    | none => simp [halo]
    | some cell => simp [halo, hnm cell halo]
  · intro cell halo hnull
    refine ⟨setCell row c repl, ?_, ?_, ?_⟩
    · rw [hsplit, hrows, List.getElem?_map, hrow, Option.map_some']
      simp [halo, hnull]
    · rw [setCell, alookup_updCell_self, halo, Option.map_some']
      simp [jsEqB_nullish_num hnull]
    · intro k hk
      rw [setCell, alookup_updCell_ne _ _ _ _ hk]

/-- Sample `age` column `[10, missing, 30]`. -/
def sampleAgeDS : DatasetLike :=
  ⟨["age"], [[("age", .num 10)], [("age", .null)], [("age", .num 30)]]⟩

/-- The fill-missing(mean) action on `age`. -/
def sampleFillMeanAge : CleaningAction :=
  { type := .fillMissing, payload := { columnName := some "age", strategy := some .mean } }

/-- Witness for C2 at the spec's example: `age = [10, missing, 30]`;
fill-missing(mean) writes `20` into the missing cell. -/
theorem claim_C2_witness :
    (execute env0 [] (initState sampleAgeDS)).rows[1]? = some [("age", ⟨.null, false⟩)] ∧
    ∃ row', (execute env0 ([] ++ [sampleFillMeanAge]) (initState sampleAgeDS)).rows[1]?
        = some row' ∧
      alookup "age" row' = some ⟨.num 20, true⟩ ∧
      ∀ k, k ≠ "age" →
        alookup k row' = alookup k ([("age", (⟨.null, false⟩ : PreviewCell))] : PreviewRow) := by
  refine ⟨by decide, ?_⟩
  obtain ⟨row', h1, h2, h3⟩ :=
    (claim_C2_fill_mean env0 sampleAgeDS [] sampleFillMeanAge "age" rfl rfl rfl
      (by intro b hb; simp at hb)
      1 [("age", ⟨.null, false⟩)] (by decide)).2 ⟨.null, false⟩ (by decide) (by decide)
  refine ⟨row', h1, ?_, h3⟩
  rw [h2]
  have hcf : colFinites env0 (execute env0 [] (initState sampleAgeDS)).rows "age"
      = [10, 30] := rfl
  rw [hcf]
  norm_num

/-- The running minimum is bounded by its start. -/
lemma foldl_min_le_start (l : List ℚ) (a : ℚ) : l.foldl min a ≤ a := by
  induction l generalizing a with
  | nil => exact le_refl a
  | cons x xs ih => exact le_trans (ih (min a x)) (min_le_left a x)

/-- The running minimum is a lower bound of the traversed elements. -/
lemma foldl_min_le_mem (l : List ℚ) (a : ℚ) : ∀ v ∈ l, l.foldl min a ≤ v := by
  induction l generalizing a with
  | nil => intro v hv; simp at hv
  | cons x xs ih =>
    intro v hv
    rcases List.mem_cons.1 hv with rfl | hv
    · exact le_trans (foldl_min_le_start xs (min a v)) (min_le_right a v)
    · exact ih (min a x) v hv

/-- The running minimum is attained by the start or one of the elements. -/
lemma foldl_min_mem (l : List ℚ) (a : ℚ) : l.foldl min a ∈ a :: l := by
  induction l generalizing a with
  | nil => simp
  | cons x xs ih =>
    rw [List.foldl_cons]
    rcases List.mem_cons.1 (ih (min a x)) with h | h
    · rw [h]
      rcases min_choice a x with hm | hm
      · rw [hm]; exact List.mem_cons_self _ _
      · rw [hm]; exact List.mem_cons_of_mem _ (List.mem_cons_self _ _)
    · exact List.mem_cons_of_mem _ (List.mem_cons_of_mem _ h)

/-- The running maximum is bounded below by its start. -/
lemma le_foldl_max_start (l : List ℚ) (a : ℚ) : a ≤ l.foldl max a := by
  induction l generalizing a with
  | nil => exact le_refl a
  | cons x xs ih => exact le_trans (le_max_left a x) (ih (max a x))

/-- The running maximum is an upper bound of the traversed elements. -/
lemma le_foldl_max_mem (l : List ℚ) (a : ℚ) : ∀ v ∈ l, v ≤ l.foldl max a := by
  induction l generalizing a with
  | nil => intro v hv; simp at hv
  | cons x xs ih =>
    intro v hv
    rcases List.mem_cons.1 hv with rfl | hv
    · exact le_trans (le_max_right a v) (le_foldl_max_start xs (max a v))
    · exact ih (max a x) v hv

/-- The running maximum is attained by the start or one of the elements. -/
lemma foldl_max_mem (l : List ℚ) (a : ℚ) : l.foldl max a ∈ a :: l := by
  induction l generalizing a with
  | nil => simp
  | cons x xs ih =>
    rw [List.foldl_cons]
    rcases List.mem_cons.1 (ih (max a x)) with h | h
    · rw [h]
      rcases max_choice a x with hm | hm
      · rw [hm]; exact List.mem_cons_self _ _
      · rw [hm]; exact List.mem_cons_of_mem _ (List.mem_cons_self _ _)
    · exact List.mem_cons_of_mem _ (List.mem_cons_of_mem _ h)

/-- C3: min-max scaling.  With no finite value in the column the step is a
no-op.  Otherwise `min`/`max` are the genuine minimum and maximum of the
column's current finite values over the whole preview at the moment the
action runs (they belong to the list and bound it), every finite cell `v` is
rewritten to `scaleMin + ((v-min)/(max-min)) * (scaleMax-scaleMin)` — which is
`scaleMin` when the column is degenerate (`min = max`) — other columns are
untouched, and every non-finite cell leaves its row unchanged. -/
theorem claim_C3_scale (env : JSEnv) (s : ExecState) (a : CleaningAction) (c : String)
    (smin smax : ℚ)
    (hat : a.type = .numberScale) (hac : a.payload.columnName = some c)
    (hmin : a.payload.scaleMin = some smin) (hmax : a.payload.scaleMax = some smax) :
    ((colFinites env s.rows c = []) → applyAction env s a = s) ∧
    (∀ (f : ℚ) (rest : List ℚ), colFinites env s.rows c = f :: rest →
      (rest.foldl min f ∈ f :: rest ∧ rest.foldl max f ∈ f :: rest ∧
        ∀ v ∈ f :: rest, rest.foldl min f ≤ v ∧ v ≤ rest.foldl max f) ∧
      ∀ (i : ℕ) (row : PreviewRow), s.rows[i]? = some row →
        (parseNumberLike env (lookupVal row c) = none →
          (applyAction env s a).rows[i]? = some row) ∧
        (∀ v : ℚ, parseNumberLike env (lookupVal row c) = some v →
          ∃ row', (applyAction env s a).rows[i]? = some row' ∧
            (∃ cell', alookup c row' = some cell' ∧
              cell'.value = .num (smin + (if rest.foldl max f = rest.foldl min f then 0
                else (v - rest.foldl min f) / (rest.foldl max f - rest.foldl min f))
                * (smax - smin)) ∧
              (rest.foldl max f = rest.foldl min f → cell'.value = .num smin)) ∧
            ∀ k, k ≠ c → alookup k row' = alookup k row)) := by
  constructor
  · intro hF
    unfold colFinites at hF
    simp only [applyAction, hat, hac, hmin, hmax, Option.getD_some]
    rw [hF]
  · intro f rest hF
    unfold colFinites at hF
    refine ⟨⟨foldl_min_mem rest f, foldl_max_mem rest f, ?_⟩, ?_⟩
    · intro v hv
      rcases List.mem_cons.1 hv with rfl | hv
      · exact ⟨foldl_min_le_start rest v, le_foldl_max_start rest v⟩
      · exact ⟨foldl_min_le_mem rest f v hv, le_foldl_max_mem rest f v hv⟩
    · have hrows : (applyAction env s a).rows = s.rows.map fun row =>
          match parseNumberLike env (lookupVal row c) with
          | none => row
          | some v =>
            setCell row c (JSVal.num (smin + (if rest.foldl max f = rest.foldl min f then 0
              else (v - rest.foldl min f) / (rest.foldl max f - rest.foldl min f))
              * (smax - smin))) := by
        simp only [applyAction, hat, hac, hmin, hmax, Option.getD_some]
        rw [hF]
      intro i row hrow
      constructor
      · intro hnone
        rw [hrows, List.getElem?_map, hrow, Option.map_some', hnone]
      · intro v hv
        refine ⟨setCell row c (JSVal.num (smin +
            (if rest.foldl max f = rest.foldl min f then 0
              else (v - rest.foldl min f) / (rest.foldl max f - rest.foldl min f))
            * (smax - smin))), ?_, ?_, ?_⟩
        · rw [hrows, List.getElem?_map, hrow, Option.map_some', hv]
        · have halo : ∃ cell0, alookup c row = some cell0 := by
            cases halo : alookup c row with
            | some cell0 => exact ⟨cell0, rfl⟩
            | none =>
              have : lookupVal row c = .undefined := by unfold lookupVal; rw [halo]
              rw [this] at hv
              simp [parseNumberLike] at hv
          obtain ⟨cell0, hcell0⟩ := halo
          set nv : JSVal := JSVal.num (smin + (if rest.foldl max f = rest.foldl min f then 0
            else (v - rest.foldl min f) / (rest.foldl max f - rest.foldl min f))
            * (smax - smin)) with hnv
          refine ⟨⟨nv, cell0.isChanged || !(jsEqB cell0.value nv)⟩, ?_, rfl, ?_⟩
          · rw [setCell, alookup_updCell_self, hcell0, Option.map_some']
          · intro hdeg
            rw [hnv]
            simp [hdeg]
        · intro k hk
          rw [setCell, alookup_updCell_ne _ _ _ _ hk]

/-- Sample column `v = [0, 5, 10]`. -/
def sampleScaleDS : DatasetLike :=
  ⟨["v"], [[("v", .num 0)], [("v", .num 5)], [("v", .num 10)]]⟩

/-- Min-max scale `v` to `[0, 1]`. -/
def sampleScaleV : CleaningAction :=
  { type := .numberScale,
    payload := { columnName := some "v", scaleMin := some 0, scaleMax := some 1 } }

/-- Witness for C3 at the spec's example: scaling `[0, 5, 10]` to `[0, 1]`
produces the cell values `0`, `1/2` and `1`. -/
theorem claim_C3_witness :
    (∃ row', (applyAction env0 (initState sampleScaleDS) sampleScaleV).rows[0]? = some row' ∧
      ∃ cell', alookup "v" row' = some cell' ∧ cell'.value = .num 0) ∧
    (∃ row', (applyAction env0 (initState sampleScaleDS) sampleScaleV).rows[1]? = some row' ∧
      ∃ cell', alookup "v" row' = some cell' ∧ cell'.value = .num (1/2)) ∧
    (∃ row', (applyAction env0 (initState sampleScaleDS) sampleScaleV).rows[2]? = some row' ∧
      ∃ cell', alookup "v" row' = some cell' ∧ cell'.value = .num 1) := by
  have hbase := (claim_C3_scale env0 (initState sampleScaleDS) sampleScaleV "v" 0 1
      rfl rfl rfl rfl).2 0 [5, 10] rfl
  have hmn : ([5, 10] : List ℚ).foldl min 0 = 0 := by
    simp only [List.foldl_cons, List.foldl_nil]
    norm_num
  have hmx : ([5, 10] : List ℚ).foldl max 0 = 10 := by
    simp only [List.foldl_cons, List.foldl_nil]
    norm_num
  refine ⟨?_, ?_, ?_⟩
  · obtain ⟨row', h1, ⟨cell', hc1, hval, _⟩, _⟩ :=
      (hbase.2 0 [("v", ⟨.num 0, false⟩)] (by decide)).2 0 rfl
    refine ⟨row', h1, cell', hc1, ?_⟩
    rw [hval, hmn, hmx]
    norm_num
  · obtain ⟨row', h1, ⟨cell', hc1, hval, _⟩, _⟩ :=
      (hbase.2 1 [("v", ⟨.num 5, false⟩)] (by decide)).2 5 rfl
    refine ⟨row', h1, cell', hc1, ?_⟩
    rw [hval, hmn, hmx]
    norm_num
  · obtain ⟨row', h1, ⟨cell', hc1, hval, _⟩, _⟩ :=
      (hbase.2 2 [("v", ⟨.num 10, false⟩)] (by decide)).2 10 rfl
    refine ⟨row', h1, cell', hc1, ?_⟩
    rw [hval, hmn, hmx]
    norm_num

namespace Analytics

/-- The sample variance is nonnegative. -/
lemma varianceA_nonneg (a : List ℚ) : 0 ≤ varianceA a := by
  unfold varianceA
  split
  · exact le_refl 0
  · next h =>
    apply div_nonneg
    · rw [← List.sum_eq_foldl]
      apply List.sum_nonneg
      intro x hx
      obtain ⟨y, _, rfl⟩ := List.mem_map.1 hx
      exact sq_nonneg _
    · have : 2 ≤ a.length := not_lt.1 h
      have h2 : (2 : ℚ) ≤ (a.length : ℚ) := by exact_mod_cast this
      linarith

/-- `stdDev` vanishes exactly on vanishing variance. -/
lemma stdDevA_eq_zero_iff (a : List ℚ) : stdDevA a = 0 ↔ varianceA a = 0 := by
  unfold stdDevA
  rw [Real.sqrt_eq_zero (by exact_mod_cast varianceA_nonneg a)]
  exact_mod_cast Iff.rfl

/-- Fewer than two values make the variance zero. -/
lemma varianceA_of_small {a : List ℚ} (h : a.length < 2) : varianceA a = 0 := by
  unfold varianceA
  rw [if_pos h]

/-- A constant list has zero variance. -/
lemma varianceA_of_const {a : List ℚ} {c : ℚ} (h : ∀ x ∈ a, x = c) : varianceA a = 0 := by
  by_cases hlen : a.length < 2
  · exact varianceA_of_small hlen
  · have hlen0 : a.length ≠ 0 := by omega
    have hmean : meanA a = c := by
      unfold meanA
      rw [if_neg hlen0, ← List.sum_eq_foldl]
      have hrep : a = List.replicate a.length c := List.eq_replicate_of_mem h
      rw [hrep, List.sum_replicate, List.length_replicate, nsmul_eq_mul]
      have hq : (a.length : ℚ) ≠ 0 := by exact_mod_cast hlen0
      field_simp
    unfold varianceA
    rw [if_neg hlen, ← List.sum_eq_foldl]
    have hz : (a.map fun x => (x - meanA a) ^ 2).sum = 0 := by
      apply List.sum_eq_zero
      intro y hy
      obtain ⟨x, hx, rfl⟩ := List.mem_map.1 hy
      rw [hmean, h x hx, sub_self]
      ring
    rw [hz, zero_div]

/-- Squaring both sides of the threshold comparison (real arithmetic). -/
lemma abs_div_lt_iff_sq {d s t : ℝ} (hs : 0 < s) (ht : 0 ≤ t) :
    (t < |d| / s) ↔ t ^ 2 * s ^ 2 < d ^ 2 := by
  rw [lt_div_iff₀ hs]
  constructor
  · intro h
    nlinarith [sq_abs d, abs_nonneg d, mul_nonneg ht hs.le]
  · intro h
    nlinarith [sq_abs d, abs_nonneg d, mul_nonneg ht hs.le]

/-- Membership in `zScoreOutliers` as a rational comparison: with nonzero
variance and a nonnegative threshold, index `i` is flagged exactly when the
squared deviation beats the squared threshold times the variance. -/
lemma mem_zScoreOutliers_rat {a : List ℚ} {t : ℚ} (ht : 0 ≤ t)
    (hv : varianceA a ≠ 0) (i : ℕ) :
    i ∈ zScoreOutliers a t ↔
      i < a.length ∧ t ^ 2 * varianceA a < (a.getD i 0 - meanA a) ^ 2 := by
  have hnn := varianceA_nonneg a
  have hvpos : (0 : ℝ) < (varianceA a : ℝ) := by
    have : (0 : ℚ) < varianceA a := lt_of_le_of_ne hnn (Ne.symm hv)
    exact_mod_cast this
  have hspos : 0 < stdDevA a := by
    unfold stdDevA
    exact Real.sqrt_pos.2 hvpos
  have hsq : stdDevA a ^ 2 = (varianceA a : ℝ) := by
    unfold stdDevA
    exact Real.sq_sqrt hvpos.le
  unfold zScoreOutliers
  rw [if_neg (ne_of_gt hspos), List.mem_filter, List.mem_range, decide_eq_true_eq]
  constructor
  · rintro ⟨hi, hlt⟩
    refine ⟨hi, ?_⟩
    rw [abs_div, abs_of_pos hspos] at hlt
    have := (abs_div_lt_iff_sq hspos (by exact_mod_cast ht)).1 hlt
    rw [hsq] at this
    exact_mod_cast (by push_cast at this ⊢; exact this : (t : ℝ) ^ 2 * (varianceA a : ℝ)
      < ((a.getD i 0 : ℚ) - meanA a : ℚ) ^ 2)
  · rintro ⟨hi, hlt⟩
    refine ⟨hi, ?_⟩
    rw [abs_div, abs_of_pos hspos]
    apply (abs_div_lt_iff_sq hspos (by exact_mod_cast ht)).2
    rw [hsq]
    push_cast
    exact_mod_cast hlt

/-- With zero standard deviation no index is flagged. -/
lemma zScoreOutliers_of_stdDev_zero {a : List ℚ} {t : ℚ} (h : stdDevA a = 0) :
    zScoreOutliers a t = [] := by
  unfold zScoreOutliers
  rw [if_pos h]

end Analytics

/-- C6 (amended): `zScoreOutliers` flags exactly the indices whose absolute
standardized deviation exceeds the threshold, and flags nothing when the
standard deviation is zero, when fewer than two values are given, or on a
constant array (regardless of threshold).  The spec's concrete example is
wrong on this code: `[10,12,11,13,1000]` at threshold `2.5` flags no index,
because the outlier inflates the sample standard deviation (see the
counterexample). -/
theorem claim_C6_zscore :
    (∀ (a : List ℚ) (t : ℚ), Analytics.stdDevA a = 0 → Analytics.zScoreOutliers a t = []) ∧
    (∀ (a : List ℚ) (t : ℚ), a.length < 2 → Analytics.zScoreOutliers a t = []) ∧
    (∀ (a : List ℚ) (t c : ℚ), (∀ x ∈ a, x = c) → Analytics.zScoreOutliers a t = []) ∧
    (∀ (a : List ℚ) (t : ℚ), Analytics.stdDevA a ≠ 0 → ∀ i : ℕ,
      (i ∈ Analytics.zScoreOutliers a t ↔ i < a.length ∧
        (t : ℝ) < |((a.getD i 0 - Analytics.meanA a : ℚ) : ℝ) / Analytics.stdDevA a|)) := by
  refine ⟨?_, ?_, ?_, ?_⟩
  · exact fun a t h => Analytics.zScoreOutliers_of_stdDev_zero h
  · intro a t h
    exact Analytics.zScoreOutliers_of_stdDev_zero
      ((Analytics.stdDevA_eq_zero_iff a).2 (Analytics.varianceA_of_small h))
  · intro a t c h
    exact Analytics.zScoreOutliers_of_stdDev_zero
      ((Analytics.stdDevA_eq_zero_iff a).2 (Analytics.varianceA_of_const h))
  · intro a t hs i
    unfold Analytics.zScoreOutliers
    rw [if_neg hs, List.mem_filter, List.mem_range, decide_eq_true_eq]

/-- Witness for C6 at a concrete input: a constant array yields no outliers. -/
theorem claim_C6_witness :
    (∀ x ∈ ([5, 5, 5] : List ℚ), x = 5) ∧
    Analytics.zScoreOutliers [5, 5, 5] 3 = [] :=
  ⟨by norm_num, claim_C6_zscore.2.2.1 [5, 5, 5] 3 5 (by norm_num)⟩

/-- Counterexample to C6 as stated: `zScoreOutliers([10,12,11,13,1000], 2.5)`
flags nothing at all — in particular not index 4 — since the outlier drives
the sample standard deviation to about 442, making every |z| at most 1.79. -/
theorem claim_C6_counterexample :
    Analytics.zScoreOutliers [10, 12, 11, 13, 1000] (5/2) = [] ∧
    (4 : ℕ) ∉ Analytics.zScoreOutliers [10, 12, 11, 13, 1000] (5/2) := by
  have hvar : Analytics.varianceA [10, 12, 11, 13, 1000] = 1954277 / 10 := by
    unfold Analytics.varianceA Analytics.meanA
    norm_num [List.foldl_cons, List.foldl_nil, List.map_cons, List.map_nil]
  have hmean : Analytics.meanA [10, 12, 11, 13, 1000] = 1046 / 5 := by
    unfold Analytics.meanA
    norm_num [List.foldl_cons, List.foldl_nil]
  have hmain : ∀ i : ℕ, i ∉ Analytics.zScoreOutliers [10, 12, 11, 13, 1000] (5/2) := by
    intro i hi
    rw [Analytics.mem_zScoreOutliers_rat (by norm_num) (by rw [hvar]; norm_num) i] at hi
    obtain ⟨hlen, hlt⟩ := hi
    rw [hvar, hmean] at hlt
    simp only [List.length_cons, List.length_nil] at hlen
    interval_cases i <;>
      simp only [List.getD_cons_zero, List.getD_cons_succ] at hlt <;> norm_num at hlt
  exact ⟨List.eq_nil_iff_forall_not_mem.2 hmain, hmain 4⟩

namespace Analytics

/-- Reading an all-finite series through the `JSNum` wrapper. -/
lemma getD_map_some (l : List ℚ) (i : ℕ) (h : i < l.length) :
    (l.map some).getD i none = some (l.getD i 0) := by
  rw [List.getD_eq_getElem?_getD, List.getD_eq_getElem?_getD, List.getElem?_map,
    List.getElem?_eq_getElem h]
  rfl

/-- The mean-centered cross sum times `n` is the computational product-moment
numerator `n·Σxy − Σx·Σy`. -/
lemma sum_centered_mul (n : ℕ) (X Y : ℕ → ℚ) (hn : (n : ℚ) ≠ 0) :
    (n : ℚ) * (∑ i in Finset.range n,
        (X i - (∑ j in Finset.range n, X j) / n) * (Y i - (∑ j in Finset.range n, Y j) / n))
      = n * (∑ i in Finset.range n, X i * Y i)
        - (∑ i in Finset.range n, X i) * (∑ i in Finset.range n, Y i) := by
  set A := ∑ j in Finset.range n, X j with hA
  set B := ∑ j in Finset.range n, Y j with hB
  have hexp : ∀ i ∈ Finset.range n, (X i - A / n) * (Y i - B / n)
      = X i * Y i - (A / n) * Y i - (B / n) * X i + (A / n) * (B / n) := fun i _ => by ring
  rw [Finset.sum_congr rfl hexp]
  rw [Finset.sum_add_distrib, Finset.sum_sub_distrib, Finset.sum_sub_distrib,
    ← Finset.mul_sum, ← Finset.mul_sum, Finset.sum_const, Finset.card_range, nsmul_eq_mul]
  rw [← hA, ← hB]
  field_simp
  ring

end Analytics

namespace Analytics

/-- With all pairs finite (and equal lengths, at least two rows) the source
`pearson` coincides with the textbook mean-centered Pearson coefficient. -/
lemma pearson_map_some_eq_spec (xs ys : List ℚ) (hlen : xs.length = ys.length)
    (h2 : 2 ≤ xs.length) :
    pearson (xs.map some) (ys.map some) = pearsonSpec xs ys := by
  have hminM : min (xs.map some).length (ys.map some).length = xs.length := by
    simp [hlen]
  have hminS : min xs.length ys.length = xs.length := by simp [hlen]
  have hn0 : (xs.length : ℚ) ≠ 0 := Nat.cast_ne_zero.2 (by omega)
  have hnotlt : ¬ xs.length < 2 := not_lt.2 h2
  have hcontrib : ∀ f : ℚ → ℚ → ℚ,
      ∑ i in Finset.range xs.length, contrib (xs.map some) (ys.map some) f i
        = ∑ i in Finset.range xs.length, f (xs.getD i 0) (ys.getD i 0) := by
    intro f
    refine Finset.sum_congr rfl fun i hi => ?_
    have hix : i < xs.length := Finset.mem_range.1 hi
    have hiy : i < ys.length := hlen ▸ hix
    unfold contrib
    rw [getD_map_some xs i hix, getD_map_some ys i hiy]
  simp only [pearson, pearsonSpec]
  rw [hminM, hminS, if_neg hnotlt]
  rw [hcontrib, hcontrib, hcontrib, hcontrib, hcontrib]
  set n := xs.length with hn
  set A := ∑ i in Finset.range n, xs.getD i 0 with hA
  set B := ∑ i in Finset.range n, ys.getD i 0 with hB
  set P := ∑ i in Finset.range n, xs.getD i 0 * xs.getD i 0 with hP
  set Q := ∑ i in Finset.range n, ys.getD i 0 * ys.getD i 0 with hQ
  set S := ∑ i in Finset.range n, xs.getD i 0 * ys.getD i 0 with hS
  set D := ∑ i in Finset.range n, (xs.getD i 0 - A / n) * (ys.getD i 0 - B / n) with hD
  set Dx := ∑ i in Finset.range n, (xs.getD i 0 - A / n) ^ 2 with hDx
  set Dy := ∑ i in Finset.range n, (ys.getD i 0 - B / n) ^ 2 with hDy
  have hDkey : (n : ℚ) * D = n * S - A * B := by
    rw [hD, hS, hA, hB]
    exact sum_centered_mul n (fun i => xs.getD i 0) (fun i => ys.getD i 0) hn0
  have hDxkey : (n : ℚ) * Dx = n * P - A * A := by
    have hsq : Dx = ∑ i in Finset.range n,
        (xs.getD i 0 - A / n) * (xs.getD i 0 - A / n) := by
      rw [hDx]
      exact Finset.sum_congr rfl fun i _ => pow_two _
    rw [hsq, hP, hA]
    exact sum_centered_mul n (fun i => xs.getD i 0) (fun i => xs.getD i 0) hn0
  have hDykey : (n : ℚ) * Dy = n * Q - B * B := by
    have hsq : Dy = ∑ i in Finset.range n,
        (ys.getD i 0 - B / n) * (ys.getD i 0 - B / n) := by
      rw [hDy]
      exact Finset.sum_congr rfl fun i _ => pow_two _
    rw [hsq, hQ, hB]
    exact sum_centered_mul n (fun i => ys.getD i 0) (fun i => ys.getD i 0) hn0
  have hnR : (0 : ℝ) < (n : ℝ) := by exact_mod_cast (by omega : 0 < n)
  have hcast : (((n : ℚ) * P - A * A : ℚ) : ℝ) * (((n : ℚ) * Q - B * B : ℚ) : ℝ)
      = ((n : ℝ)) ^ 2 * (((Dx : ℚ) : ℝ) * ((Dy : ℚ) : ℝ)) := by
    have h1 : (((n : ℚ) * P - A * A : ℚ) : ℝ) = ((n : ℝ)) * ((Dx : ℚ) : ℝ) := by
      rw [← hDxkey]; push_cast; ring
    have h2 : (((n : ℚ) * Q - B * B : ℚ) : ℝ) = ((n : ℝ)) * ((Dy : ℚ) : ℝ) := by
      rw [← hDykey]; push_cast; ring
    rw [h1, h2]; ring
  have hdenEq : Real.sqrt ((((n : ℚ) * P - A * A : ℚ) : ℝ) * (((n : ℚ) * Q - B * B : ℚ) : ℝ))
      = (n : ℝ) * Real.sqrt (((Dx : ℚ) : ℝ) * ((Dy : ℚ) : ℝ)) := by
    rw [hcast, Real.sqrt_mul (sq_nonneg _), Real.sqrt_sq hnR.le]
  rw [hdenEq]
  by_cases hz : Real.sqrt (((Dx : ℚ) : ℝ) * ((Dy : ℚ) : ℝ)) = 0
  · rw [hz, mul_zero]
    simp
  · have hne : (n : ℝ) * Real.sqrt (((Dx : ℚ) : ℝ) * ((Dy : ℚ) : ℝ)) ≠ 0 :=
      mul_ne_zero (ne_of_gt hnR) hz
    rw [if_neg hne, if_neg hz]
    have hnum : (((n : ℚ) * S - A * B : ℚ) : ℝ) = (n : ℝ) * ((D : ℚ) : ℝ) := by
      rw [← hDkey]; push_cast; ring
    rw [hnum]
    exact mul_div_mul_left _ _ (ne_of_gt hnR)

end Analytics

namespace Analytics

/-- A constant first series makes the textbook coefficient vanish (zero
variance, denominator 0). -/
lemma pearsonSpec_const_zero (xs ys : List ℚ) (c : ℚ) (hconst : ∀ v ∈ xs, v = c)
    (hlen : xs.length = ys.length) (h2 : 2 ≤ xs.length) : pearsonSpec xs ys = 0 := by
  have hminS : min xs.length ys.length = xs.length := by simp [hlen]
  have hn0 : (xs.length : ℚ) ≠ 0 := Nat.cast_ne_zero.2 (by omega)
  simp only [pearsonSpec]
  rw [hminS]
  have hgetD : ∀ i ∈ Finset.range xs.length, xs.getD i 0 = c := by
    intro i hi
    have hix : i < xs.length := Finset.mem_range.1 hi
    rw [List.getD_eq_getElem?_getD, List.getElem?_eq_getElem hix]
    exact hconst _ (List.getElem_mem hix)
  have hA : (∑ i in Finset.range xs.length, xs.getD i 0) = xs.length * c := by
    rw [Finset.sum_congr rfl hgetD, Finset.sum_const, Finset.card_range, nsmul_eq_mul]
  have hDx : (∑ i in Finset.range xs.length,
      (xs.getD i 0 - (∑ j in Finset.range xs.length, xs.getD j 0) / xs.length) ^ 2) = 0 := by
    apply Finset.sum_eq_zero
    intro i hi
    rw [hgetD i hi, hA, mul_div_cancel_left₀ c hn0, sub_self]
    norm_num
  rw [hDx]
  simp

end Analytics

/-- C7 (amended): `pearson` skips non-finite pairs in its running sums but
divides with `n = min(len x, len y)`, the total pair count; it returns 0
whenever that `n` is below 2 and whenever the denominator vanishes.  When
every index-aligned pair is finite it equals the textbook mean-centered
Pearson correlation coefficient of those pairs (including the
zero-on-zero-variance convention), which also covers every correlation entry,
since the caller feeds `pearson` two finite-filtered, equal-length series. -/
theorem claim_C7_pearson :
    (∀ x y : List Analytics.JSNum, min x.length y.length < 2 → Analytics.pearson x y = 0) ∧
    (∀ xs ys : List ℚ, xs.length = ys.length → 2 ≤ xs.length →
      Analytics.pearson (xs.map some) (ys.map some) = Analytics.pearsonSpec xs ys) ∧
    (∀ (xs ys : List ℚ) (c : ℚ), xs.length = ys.length → 2 ≤ xs.length →
      (∀ v ∈ xs, v = c) → Analytics.pearson (xs.map some) (ys.map some) = 0) := by
  refine ⟨?_, ?_, ?_⟩
  · intro x y h
    simp only [Analytics.pearson]
    rw [if_pos h]
  · exact Analytics.pearson_map_some_eq_spec
  · intro xs ys c hlen h2 hconst
    rw [Analytics.pearson_map_some_eq_spec xs ys hlen h2]
    exact Analytics.pearsonSpec_const_zero xs ys c hconst hlen h2

/-- Witness for C7 at a concrete input: two all-finite series of length two. -/
theorem claim_C7_witness :
    Analytics.pearson (([0, 1] : List ℚ).map some) (([1, 3] : List ℚ).map some)
      = Analytics.pearsonSpec [0, 1] [1, 3] :=
  claim_C7_pearson.2.1 [0, 1] [1, 3] rfl (by norm_num)

/-- Counterexample to C7 as stated: `x = [1, NaN]`, `y = [1, 2]` has a single
finite pair, so the claim demands 0; the code divides with `n = 2` (the total
pair count) and returns 1. -/
theorem claim_C7_counterexample :
    Analytics.countFinitePairs [some 1, none] [some 1, some 2] = 1 ∧
    Analytics.pearson [some 1, none] [some 1, some 2] = 1 := by
  constructor
  · rfl
  · simp only [Analytics.pearson]
    norm_num [Finset.sum_range_succ, Analytics.contrib, Real.sqrt_one]

/-- C8: the type-inference rule of `analyzeColumns`.  A column whose
non-missing values pass the numeric-parse-rate test (> 0.8) is numeric, and a
non-numeric column is categorical exactly when its distinct-value count is at
most 50 or its distinct-to-total ratio is below 0.2 — the branch order
(numeric, then categorical, then date, then text) resolves all ties in favour
of the earlier-listed type. -/
theorem claim_C8_type_inference (env : JSEnv) (raw : List JSVal) :
    (((((raw.filter fun v => !(QA.isMissingQ v)).map QA.toNumber).filterMap id).length : ℚ)
        / (((raw.filter fun v => !(QA.isMissingQ v)).length : ℕ) : ℚ) > 0.8 →
      QA.inferType env raw = QA.ColType.numeric) ∧
    (¬ (((((raw.filter fun v => !(QA.isMissingQ v)).map QA.toNumber).filterMap id).length : ℚ)
        / (((raw.filter fun v => !(QA.isMissingQ v)).length : ℕ) : ℚ) > 0.8) →
      (QA.inferType env raw = QA.ColType.categorical ↔
        ((raw.filter fun v => !(QA.isMissingQ v)).dedup).length ≤ 50 ∨
          ((((raw.filter fun v => !(QA.isMissingQ v)).dedup).length : ℚ)
            / (((raw.filter fun v => !(QA.isMissingQ v)).length : ℕ) : ℚ) < 0.2))) := by
  constructor
  · intro hnum
    unfold QA.inferType
    rw [if_pos hnum]
  · intro hnum
    unfold QA.inferType
    rw [if_neg hnum]
    by_cases hcat :
        ((raw.filter fun v => !(QA.isMissingQ v)).dedup).length ≤ 50 ∨
          ((((raw.filter fun v => !(QA.isMissingQ v)).dedup).length : ℚ)
            / (((raw.filter fun v => !(QA.isMissingQ v)).length : ℕ) : ℚ) < 0.2)
    · rw [if_pos hcat]
      simp [hcat]
    · rw [if_neg hcat]
      constructor
      · intro h
        split at h <;> simp_all
      · intro h
        exact absurd h hcat

/-- Witness for C8 at the spec's example: five string values, four distinct,
non-numeric — classified categorical. -/
theorem claim_C8_witness :
    QA.inferType env0 [.str "a", .str "b", .str "c", .str "d", .str "a"]
      = QA.ColType.categorical := by
  have h := (claim_C8_type_inference env0 [.str "a", .str "b", .str "c", .str "d", .str "a"]).2
  rw [h ?hn]
  case hn =>
    rw [show ((([(JSVal.str "a"), .str "b", .str "c", .str "d", .str "a"].filter
        fun v => !(QA.isMissingQ v)).map QA.toNumber).filterMap id).length = 0 from rfl,
      show ([(JSVal.str "a"), .str "b", .str "c", .str "d", .str "a"].filter
        fun v => !(QA.isMissingQ v)).length = 5 from rfl]
    norm_num
  · left
    rw [show (([(JSVal.str "a"), .str "b", .str "c", .str "d", .str "a"].filter
        fun v => !(QA.isMissingQ v)).dedup).length = 4 from rfl]
    norm_num
